import Mathlib

/-!
A shallow embedding of the command-execution agent `execagent`.

The Go sources embedded here are `interface.go` (data model), `execagent.go`
(registry, executor, collector, handlers, process terminator) and
`ps_command_linux.go`.

Modelling conventions.

* A Go `string` is a Lean `String`; the model covers strings that hold valid
  UTF-8. Lengths that Go counts in bytes are counted with `Char.utf8Size`.
* The Go map `executions` is an association list; assignment `m[k] = v` puts
  the binding in front, lookup returns the first binding of the key.
* The buffered channel `completed` is a FIFO list of capacity five.
* The mutex makes every critical section one atomic step; goroutines are
  interleaved by an explicit list of actions.
* The operating system and the library calls whose result the agent cannot
  compute (JSON decoding, `strconv.Quote`, running a program, finding and
  killing a process) are fields of `Env` or parameters of an action.
-/

set_option linter.dupNamespace false

set_option linter.unusedVariables false

namespace Execagent

/-! ## Definitions: interface.go -/

/-- Go `type status string`. -/
abbrev status := String

def success : status := "SUCCESS"

def failure : status := "FAILURE"

def inprogress : status := "IN PROGRESS"

/-- Go `Command`. The unexported field `id` is never read or written. -/
structure Command where
  Command : String
  Args : List String
  Sync : Bool
deriving DecidableEq, Repr

/-- Go `CommandID`. -/
structure CommandID where
  ID : String
deriving DecidableEq, Repr

/-- Go `CommandExec`. -/
structure CommandExec where
  ID : String
  Status : status
  Results : List String
deriving DecidableEq, Repr

/-- The map `executions map[string]CommandExec`. -/
abbrev Registry := List (String × CommandExec)

/-- Map lookup `v, ok := m[k]`. -/
def Registry.get? (m : Registry) (k : String) : Option CommandExec :=
  match m with
  | [] => none
  | (k', v) :: rest => if k = k' then some v else Registry.get? rest k

/-- Map assignment `m[k] = v`. -/
def Registry.set (m : Registry) (k : String) (v : CommandExec) : Registry :=
  (k, v) :: m

/-- Go `Agent` (the mutex is the atomicity of the operations below). -/
structure Agent where
  port : Int
  executions : Registry
  completed : List CommandExec
deriving DecidableEq, Repr

/-- Capacity of the channel made by `make(chan CommandExec, 5)`. -/
def completedCap : Nat := 5

/-! ## execagent.go: NewAgent, collectResults, registerNewCmd -/

/-- Go `NewAgent`. -/
def NewAgent (port : Int) : Agent :=
  { port := port, executions := [], completed := [] }

/-- Go `strconv.Itoa`. -/
def Itoa (i : Int) : String :=
  if i < 0 then "-" ++ Nat.repr i.natAbs else Nat.repr i.toNat

/-- The loop of `registerNewCmd`:
`for id := rand.Int(); ok; id = rand.Int() { idStr = ...; _, ok = a.executions[idStr] }`.
`rnd i` is the value of the `i`-th call of `rand.Int()` made by this call. -/
def registerLoop (m : Registry) (rnd : Nat → Nat) :
    Nat → Bool → String → Nat → Option String
  | fuel, ok, idStr, i =>
    if ok = false then some idStr
    else match fuel with
      | 0 => none
      | fuel + 1 =>
        let idStr := "cmd-" ++ Itoa (rnd i)
        let ok := (m.get? idStr).isSome
        registerLoop m rnd fuel ok idStr (i + 1)

/-- Go `registerNewCmd`: the returned ID and the agent afterwards; `none` when
the loop has not ended within `fuel` iterations. -/
def registerNewCmd (a : Agent) (rnd : Nat → Nat) (fuel : Nat) : Option (String × Agent) :=
  match registerLoop a.executions rnd fuel true "" 0 with
  | none => none
  | some idStr =>
    let exec : CommandExec := { ID := idStr, Status := inprogress, Results := [] }
    some (idStr, { a with executions := a.executions.set idStr exec })

/-- One iteration of the `select` of `collectResults` taking the first branch:
a record is received from `completed` and stored under its ID. `none` when the
channel is empty (the receive blocks). -/
def collectResults (a : Agent) : Option Agent :=
  match a.completed with
  | [] => none
  | res :: rest =>
    some { a with executions := a.executions.set res.ID res, completed := rest }

/-! ## Library functions used by execagent.go -/

/-- Go `bufio.MaxScanTokenSize`, the largest buffer a `bufio.Scanner` made by
`NewScanner` allocates. -/
def maxScanTokenSize : Nat := 64 * 1024

/-- Length in bytes of the UTF-8 encoding, Go `len`. -/
def byteLen (cs : List Char) : Nat := (cs.map Char.utf8Size).sum

/-- Go `bufio.dropCR`: drops one trailing carriage return. -/
def dropCR (data : List Char) : List Char :=
  if data.getLast? = some '\r' then data.dropLast else data

/-- One call of `s.Scan()` of a `bufio.Scanner` with the default split function
`ScanLines`, reading a `bytes.Buffer` that still holds `data`: the token
`s.Text()` and the input left for the next call, or `none` when `Scan` returns
false. `Scan` returns false at the end of the input, and with `ErrTooLong` when
the buffer of `maxScanTokenSize` bytes is full and holds no newline. -/
def scan (data : List Char) : Option (String × List Char) :=
  if data = [] then none
  else
    let line := data.takeWhile (fun c => c != '\n')
    let rest := data.dropWhile (fun c => c != '\n')
    if maxScanTokenSize ≤ byteLen line then none
    else some (String.mk (dropCR line), rest.drop 1)

/-- The loop `for s.Scan() { res = append(res, s.Text()) }`. -/
def scanLoop : Nat → List Char → List String → List String
  | 0, _, res => res
  | fuel + 1, data, res =>
    match scan data with
    | none => res
    | some (tok, rest) => scanLoop fuel rest (res ++ [tok])

/-- Go `unicode.IsSpace`. -/
def isSpace (c : Char) : Bool :=
  let n := c.toNat
  (9 ≤ n && n ≤ 13) || n == 0x20 || n == 0x85 || n == 0xA0 || n == 0x1680 ||
    (0x2000 ≤ n && n ≤ 0x200a) || n == 0x2028 || n == 0x2029 || n == 0x202f ||
    n == 0x205f || n == 0x3000

/-- Go `strings.TrimSpace` on the characters of a string. -/
def trimSpace (cs : List Char) : List Char :=
  ((cs.dropWhile isSpace).reverse.dropWhile isSpace).reverse

/-- Go `strings.TrimSpace`. -/
def TrimSpace (s : String) : String := String.mk (trimSpace s.data)

/-- Text of a `*strconv.NumError` of `Atoi`; `quote` is `strconv.Quote`. -/
def numError (quote : String → String) (num : String) (msg : String) : String :=
  "strconv.Atoi: parsing " ++ quote num ++ ": " ++ msg

/-- The digit loop of `strconv.ParseUint(s, 10, 64)`: `none` for a syntax error,
`some none` for a range error, `some (some n)` for the value. -/
def parseUintLoop : List Char → Nat → Option (Option Nat)
  | [], n => some (some n)
  | c :: cs, n =>
    if '0' ≤ c ∧ c ≤ '9' then
      if (2 ^ 64 - 1) / 10 + 1 ≤ n then some none
      else
        let n1 := n * 10 + (c.toNat - '0'.toNat)
        if 2 ^ 64 - 1 < n1 then some none else parseUintLoop cs n1
    else none

/-- Go `strconv.Atoi` for a 64-bit `int`: an optional sign and decimal digits;
the error is the text of the `NumError`. -/
def Atoi (quote : String → String) (s : String) : Except String Int :=
  let neg : Bool := decide (s.data.head? = some '-')
  let digits := if s.data.head? = some '-' ∨ s.data.head? = some '+' then s.data.tail else s.data
  if digits = [] then .error (numError quote s "invalid syntax")
  else
    match parseUintLoop digits 0 with
    | none => .error (numError quote s "invalid syntax")
    | some none => .error (numError quote s "value out of range")
    | some (some un) =>
      if neg = false ∧ 2 ^ 63 ≤ un then .error (numError quote s "value out of range")
      else if neg = true ∧ 2 ^ 63 < un then .error (numError quote s "value out of range")
      else .ok (if neg then -(un : Int) else (un : Int))

/-- Go `strings.LastIndex(s, string(c))` for a one-byte `c`, counted in
characters; `lastIndexFrom c cs i acc` scans `cs`, whose first character has
index `i`, and `acc` is the last index found so far. -/
def lastIndexFrom (c : Char) : List Char → Nat → Int → Int
  | [], _, acc => acc
  | x :: xs, i, acc => lastIndexFrom c xs (i + 1) (if x = c then (i : Int) else acc)

/-- Go `strings.LastIndex(s, string(c))`: `-1` when `c` does not occur. -/
def LastIndex (s : String) (c : Char) : Int := lastIndexFrom c s.data 0 (-1)

/-- The part of the world the agent calls into. -/
structure Env where
  /-- Go `json.NewDecoder(r.Body).Decode(&cmd)`: the value left in `cmd` and the error. -/
  decode : String → Command × Option String
  /-- Go `strconv.Quote`. -/
  quote : String → String
  /-- Go `exec.CommandContext(ctx, name, args...).Output()`. -/
  output : String → List String → String × Option String
  /-- The error of `os.FindProcess(pid)`. -/
  findProcess : Int → Option String
  /-- The error of `proc.Kill()`. -/
  kill : Int → Option String

/-- Go `http.Request`, the parts the handlers read. -/
structure Request where
  Method : String
  Path : String
  Body : String
deriving DecidableEq, Repr

/-- What a handler writes to the body of the response. -/
inductive Chunk where
  /-- A line written by `http.Error`. -/
  | line (msg : String)
  /-- A `CommandExec` written by `json.NewEncoder(w).Encode`. -/
  | exec (e : CommandExec)
  /-- A `CommandID` written by `json.NewEncoder(w).Encode`. -/
  | id (c : CommandID)
deriving DecidableEq, Repr

/-- Go `http.ResponseWriter` as a recorder: the status code once the header is
written, and the body. -/
structure ResponseWriter where
  Code : Option Nat
  Body : List Chunk
deriving DecidableEq, Repr

def StatusOK : Nat := 200

def StatusBadRequest : Nat := 400

def StatusMethodNotAllowed : Nat := 405

/-- The writer a handler is called with. -/
def newRecorder : ResponseWriter := { Code := none, Body := [] }

/-- Go `w.WriteHeader`: only the first call sets the status code. -/
def WriteHeader (w : ResponseWriter) (code : Nat) : ResponseWriter :=
  match w.Code with
  | none => { w with Code := some code }
  | some _ => w

/-- Go `w.Write`: writes the header with `StatusOK` if it is not written yet. -/
def Write (w : ResponseWriter) (c : Chunk) : ResponseWriter :=
  let w := WriteHeader w StatusOK
  { w with Body := w.Body ++ [c] }

/-- Go `http.Error`. -/
def httpError (w : ResponseWriter) (msg : String) (code : Nat) : ResponseWriter :=
  Write (WriteHeader w code) (.line msg)

/-! ## execagent.go: execute -/

/-- Go `execute`: the records it sends on `a.completed`, in order. `run` is
`exec.CommandContext(ctx, name, args...).Output()` at the time of the call:
standard output and error. -/
def execute (run : String → List String → String × Option String) (cmd : Command)
    (id : String) : List CommandExec :=
  let (out, err) := run cmd.Command cmd.Args
  match err with
  | some e => [{ ID := id, Status := failure, Results := [e] }]
  | none =>
    let res := scanLoop (out.data.length + 1) out.data []
    [{ ID := id, Status := success, Results := res }]

/-! ## execagent.go: findAndStop and its handler; ps_command_linux.go -/

/-- Go `getPsCommand` (linux). -/
def getPsCommand (procName : String) : String × List String :=
  ("ps", ["-C", procName, "-o", "pid="])

/-- What a call of `findAndStop` did: the error it returned (`none` for nil),
the commands it ran and the process IDs it called `Kill` on. -/
structure StopResult where
  err : Option String
  lookups : List (String × List String)
  signals : List Int
deriving DecidableEq, Repr

/-- Go `findAndStop`. -/
def findAndStop (env : Env) (procName : String) : StopResult :=
  let (cmd, args) := getPsCommand procName
  let (out, err) := env.output cmd args
  match err with
  | some e =>
    { err := some ("Failed to execute command to find process " ++ procName ++ ": " ++ e),
      lookups := [(cmd, args)], signals := [] }
  | none =>
    let res := match scan out.data with
      | some (tok, _) => tok
      | none => ""
    match Atoi env.quote (TrimSpace res) with
    | .error e =>
      { err := some ("Failed to parse process ID for process " ++ procName ++ ": " ++ e),
        lookups := [(cmd, args)], signals := [] }
    | .ok pid =>
      match env.findProcess pid with
      | some e =>
        { err := some ("Failed to find process with name " ++ procName ++ " (PID: " ++
            Itoa pid ++ "): " ++ e),
          lookups := [(cmd, args)], signals := [] }
      | none =>
        match env.kill pid with
        | some e =>
          { err := some ("Failed to stop process " ++ procName ++ " (PID:" ++
              Itoa pid ++ "): " ++ e),
            lookups := [(cmd, args)], signals := [pid] }
        | none => { err := none, lookups := [(cmd, args)], signals := [pid] }

/-- Go `findAndStopHandler`: the response, and what `findAndStop` did when it
was called. -/
def findAndStopHandler (env : Env) (w : ResponseWriter) (r : Request) :
    ResponseWriter × Option StopResult :=
  if r.Method ≠ "PUT" ∧ r.Method ≠ "POST" then
    (httpError w "Only PUT or POST methods are supported" StatusMethodNotAllowed, none)
  else
    let (cmd, derr) := env.decode r.Body
    let w := match derr with
      | some _ => httpError w "" StatusBadRequest
      | none => w
    let st := findAndStop env cmd.Command
    match st.err with
    | some e => (httpError w ("Could not stop process " ++ e) StatusBadRequest, some st)
    | none =>
      let res : CommandExec :=
        { ID := "", Status := "", Results := ["Process " ++ cmd.Command ++ " was stopped"] }
      (Write w (.exec res), some st)

/-! ## execagent.go: statusHandler -/

/-- Go `statusHandler`: the agent afterwards and the response. -/
def statusHandler (a : Agent) (w : ResponseWriter) (r : Request) : Agent × ResponseWriter :=
  if r.Method ≠ "GET" then
    (a, httpError w "Only GET method is supported" StatusMethodNotAllowed)
  else
    let idx := LastIndex r.Path '/'
    if idx = -1 then
      (a, httpError w "Invalid request, missing command ID" StatusBadRequest)
    else
      let id := String.mk (r.Path.data.drop (idx + 1).toNat)
      match a.executions.get? id with
      | none => (a, httpError w ("Unknown command ID " ++ id) StatusBadRequest)
      | some exec => (a, Write w (.exec exec))

/-! ## execagent.go: execHandler -/

/-- How the first part of `execHandler` ends. -/
inductive ExecStart where
  /-- The handler has responded and returned. -/
  | rejected (w : ResponseWriter)
  /-- The ID is registered and `go a.execute(ctx, &cmd, id)` is started. -/
  | launched (id : String) (cmd : Command)
deriving DecidableEq, Repr

/-- Go `execHandler` up to and including `go a.execute(ctx, &cmd, id)`: the
agent afterwards and how this part ended; `none` when `registerNewCmd` has not
ended within `fuel` iterations. -/
def execHandlerStart (env : Env) (a : Agent) (w : ResponseWriter) (r : Request)
    (rnd : Nat → Nat) (fuel : Nat) : Option (Agent × ExecStart) :=
  if r.Method ≠ "PUT" ∧ r.Method ≠ "POST" then
    some (a, .rejected (httpError w "Only PUT or POST methods are supported"
      StatusMethodNotAllowed))
  else
    let (cmd, derr) := env.decode r.Body
    match derr with
    | some e => some (a, .rejected (httpError w e StatusBadRequest))
    | none =>
      match registerNewCmd a rnd fuel with
      | none => none
      | some (id, a) => some (a, .launched id cmd)

/-- The zero value of `CommandExec`, which a map lookup gives for a missing key. -/
def zeroExec : CommandExec := { ID := "", Status := "", Results := [] }

/-- One iteration of the wait loop of `execHandler` for a synchronous command:
`res = a.executions[id]; completed = res.Status != inprogress`. -/
def syncPoll (a : Agent) (id : String) : CommandExec × Bool :=
  let res := (a.executions.get? id).getD zeroExec
  (res, res.Status != inprogress)

/-- Go `execHandler` after `go a.execute(ctx, &cmd, id)`: the response. For a
synchronous command `res` is the record read by the last iteration of the wait
loop; for an asynchronous one the response is the ID. -/
def execHandlerReply (w : ResponseWriter) (cmd : Command) (id : String)
    (res : CommandExec) : ResponseWriter :=
  if cmd.Sync then Write w (.exec res) else Write w (.id { ID := id })

/-! ## The agent as a transition system -/

/-- The agent, its executor goroutines and the history of a run. -/
structure Sys where
  agent : Agent
  /-- Goroutines `go a.execute(ctx, &cmd, id)` that have not sent their record yet. -/
  running : List (String × Command)
  /-- The IDs `registerNewCmd` has returned, latest first. -/
  issued : List String
  /-- The result of `Output()` in each `execute` that has sent its record, latest first. -/
  ran : List (String × String × Option String)
deriving DecidableEq, Repr

/-- The atomic steps of the agent. -/
inductive Action where
  /-- A request to `execHandler` runs up to `go a.execute(ctx, &cmd, id)`. -/
  | exec (r : Request) (rnd : Nat → Nat) (fuel : Nat)
  /-- The `n`-th running `execute` gets the result of `Output()` and sends its record. -/
  | finish (n : Nat) (run : String → List String → String × Option String)
  /-- The collector `collectResults` receives one record and stores it. -/
  | collect

/-- The agent made by `NewAgent`, before any request. -/
def Sys.init (port : Int) : Sys :=
  { agent := NewAgent port, running := [], issued := [], ran := [] }

/-- One atomic step; `none` when the step cannot be taken (a send on a full
channel, a receive on an empty one, no such goroutine, not enough fuel). -/
def Sys.step (env : Env) (s : Sys) : Action → Option Sys
  | .exec r rnd fuel =>
    match execHandlerStart env s.agent newRecorder r rnd fuel with
    | none => none
    | some (a, .rejected _) => some { s with agent := a }
    | some (a, .launched id cmd) =>
      some { s with agent := a, running := s.running ++ [(id, cmd)], issued := id :: s.issued }
  | .finish n run =>
    match s.running.get? n with
    | none => none
    | some (id, cmd) =>
      let sent := execute run cmd id
      if s.agent.completed.length + sent.length ≤ completedCap then
        some { s with
          agent := { s.agent with completed := s.agent.completed ++ sent }
          running := s.running.eraseIdx n
          ran := (id, run cmd.Command cmd.Args) :: s.ran }
      else none
  | .collect =>
    match collectResults s.agent with
    | none => none
    | some a => some { s with agent := a }

/-- A sequence of atomic steps. -/
def Sys.run (env : Env) : Sys → List Action → Option Sys
  | s, [] => some s
  | s, act :: acts =>
    match Sys.step env s act with
    | none => none
    | some s => Sys.run env s acts

/-! ## Inputs and states used as examples, and notions used in the statements -/

/-- The candidate ID made from the `i`-th random number. -/
def candidate (rnd : Nat → Nat) (i : Nat) : String := "cmd-" ++ Itoa (rnd i)

/-- An agent whose registry holds the IDs `cmd-7` and `cmd-8`. -/
def agentTwo : Agent :=
  { port := 8080
    executions :=
      [("cmd-8", { ID := "cmd-8", Status := success, Results := ["hello"] }),
       ("cmd-7", { ID := "cmd-7", Status := inprogress, Results := [] })]
    completed := [] }

/-- The stream of random numbers 7, 8, 9, ... -/
def streamFrom7 : Nat → Nat := fun i => 7 + i

/-- The request of `TestInvalidStatus`. -/
def invalidStatusRequest : Request := { Method := "GET", Path := "/status/invalid", Body := "" }

/-- A command that is not found. -/
def missingCmd : Command := { Command := "nosuchbinary", Args := [], Sync := true }

/-- The operating system does not find the program. -/
def runMissing : String → List String → String × Option String :=
  fun _ _ => ("", some "executable file not found in $PATH")

/-- An output whose first line has `maxScanTokenSize` bytes, followed by the
line `second`. -/
def longOutput : String := String.mk (List.replicate maxScanTokenSize 'a' ++ '\n' :: "second\n".data)

/-- The operating system runs the program without error, with `longOutput` on
standard output. -/
def runLong : String → List String → String × Option String :=
  fun _ _ => (longOutput, none)

/-- The output that consists of the given lines, each ended by a newline. -/
def unlines : List (List Char) → List Char
  | [] => []
  | l :: ls => l ++ '\n' :: unlines ls

/-- The run of `echo hello` in `TestExec`. -/
def runEcho : String → List String → String × Option String :=
  fun _ _ => ("hello\n", none)

/-- The command of `TestExec`. -/
def echoCmd : Command := { Command := "echo", Args := ["hello"], Sync := true }

/-- The world of `TestStop`: the body decodes to the command `tail`, the
listing command prints the process ID 4242, and the process can be killed. -/
def envTail : Env where
  decode := fun _ => ({ Command := "tail", Args := [], Sync := true }, none)
  quote := fun s => s
  output := fun _ _ => (" 4242\n", none)
  findProcess := fun _ => none
  kill := fun _ => none

/-- The request of `TestStop`. -/
def stopRequest : Request := { Method := "POST", Path := "/findandstop", Body := "tail" }

/-- A world in which the body `{"command":"tail","args":5}` is rejected by the
decoder after the field `command` is set, the listing command prints the
process ID 4242, and the process can be killed. -/
def envBadBody : Env where
  decode := fun _ => ({ Command := "tail", Args := [], Sync := false },
    some "json: cannot unmarshal number into Go struct field Command.args of type []string")
  quote := fun s => s
  output := fun _ _ => (" 4242\n", none)
  findProcess := fun _ => none
  kill := fun _ => none

/-- A request whose body does not decode as a `Command`. -/
def badBodyRequest : Request :=
  { Method := "POST", Path := "/findandstop", Body := "\x7b\"command\":\"tail\",\"args\":5\x7d" }

/-- The text of an output before its first newline: the first line. -/
def firstLine (out : String) : String := String.mk (out.data.takeWhile (fun c => c != '\n'))

/-- What `findAndStop` reads from the output of the listing command:
`if s.Scan() { res = s.Text() }`. -/
def scanFirst (out : String) : String :=
  match scan out.data with
  | some (tok, _) => tok
  | none => ""

/-- A world in which the listing command prints a line that is not a number,
followed by a line with a process ID. -/
def envNotNumeric : Env where
  decode := fun _ => ({ Command := "tail", Args := [], Sync := true }, none)
  quote := fun s => "\"" ++ s ++ "\""
  output := fun _ _ => ("  PID\n 4242\n", none)
  findProcess := fun _ => none
  kill := fun _ => none

/-- The record `execute` sends for the ID `id` when `Output()` returns `o`. -/
def resultOf (id : String) (o : String × Option String) : CommandExec :=
  match o.2 with
  | some e => { ID := id, Status := failure, Results := [e] }
  | none => { ID := id, Status := success, Results := scanLoop (o.1.data.length + 1) o.1.data [] }

/-- The record `registerNewCmd` stores for a new ID. -/
def newExec (id : String) : CommandExec := { ID := id, Status := inprogress, Results := [] }

/-- The IDs whose record is on its way to the registry: the running `execute`
goroutines and the records waiting in the channel. -/
def Sys.pending (s : Sys) : List String :=
  s.running.map Prod.fst ++ s.agent.completed.map CommandExec.ID

/-- What holds in every state reached from a new agent. -/
structure Sys.Inv (s : Sys) : Prop where
  keyID : ∀ k r, s.agent.executions.get? k = some r → r.ID = k
  issuedNodup : s.issued.Nodup
  issuedKey : ∀ id ∈ s.issued, s.agent.executions.get? id ≠ none
  pendingCount : ∀ id, s.pending.count id ≤ 1
  pendingInProgress : ∀ id ∈ s.pending,
    ∃ r, s.agent.executions.get? id = some r ∧ r.Status = inprogress
  storedStatus : ∀ k r, s.agent.executions.get? k = some r →
    r.Status = inprogress ∨ r.Status = success ∨ r.Status = failure
  completedResult : ∀ r ∈ s.agent.completed, ∃ o, (r.ID, o) ∈ s.ran ∧ r = resultOf r.ID o
  cap : s.agent.completed.length ≤ completedCap
  ranResult : ∀ id o, (id, o) ∈ s.ran →
    resultOf id o ∈ s.agent.completed ∨ s.agent.executions.get? id = some (resultOf id o)
  terminalRan : ∀ k r, s.agent.executions.get? k = some r → r.Status ≠ inprogress →
    ∃ o, (k, o) ∈ s.ran ∧ r = resultOf k o

/-- A request to `execHandler` that registers an ID. -/
def execRequest : Request := { Method := "POST", Path := "/exec", Body := "echo hello" }

/-- A world in which every body decodes to the command `echo hello`. -/
def envEcho : Env where
  decode := fun _ => (echoCmd, none)
  quote := fun s => s
  output := fun _ _ => ("hello\n", none)
  findProcess := fun _ => none
  kill := fun _ => none

/-- A run: two commands are registered (the second after one collision on
`cmd-7`), the first one finishes and its record is collected. -/
def demoActs : List Action :=
  [.exec execRequest (fun _ => 7) 1, .exec execRequest streamFrom7 2,
   .finish 0 runEcho, .collect]

/-- The state after `demoActs`. -/
def demoSys : Sys :=
  { agent :=
      { port := 8080
        executions :=
          [("cmd-7", { ID := "cmd-7", Status := success, Results := ["hello"] }),
           ("cmd-8", { ID := "cmd-8", Status := inprogress, Results := [] }),
           ("cmd-7", { ID := "cmd-7", Status := inprogress, Results := [] })]
        completed := [] }
    running := [("cmd-8", echoCmd)]
    issued := ["cmd-8", "cmd-7"]
    ran := [("cmd-7", "hello\n", none)] }

/-- The state of `TestExec` after the command has run and its record is stored. -/
def echoSys : Sys :=
  { agent :=
      { port := 8080
        executions :=
          [("cmd-7", { ID := "cmd-7", Status := success, Results := ["hello"] }),
           ("cmd-7", { ID := "cmd-7", Status := inprogress, Results := [] })]
        completed := [] }
    running := []
    issued := ["cmd-7"]
    ran := [("cmd-7", "hello\n", none)] }

/-- A valid process identifier: a positive number that fits the 32-bit `pid_t`
of the operating system. -/
def isProcessID (n : Int) : Bool := decide (0 < n ∧ n ≤ 2147483647)

/-- A Linux world, where `os.FindProcess` succeeds for every number, in which
the listing command prints the line `-5` and `Kill` reports no error. -/
def envMinusFive : Env where
  decode := fun _ => ({ Command := "tail", Args := [], Sync := true }, none)
  quote := fun s => "\"" ++ s ++ "\""
  output := fun _ _ => ("-5\n", none)
  findProcess := fun _ => none
  kill := fun _ => none

/-! ## Theorems -/

/-! ### The registry and registerNewCmd -/

theorem Registry.get?_set (m : Registry) (k k' : String) (v : CommandExec) :
    (m.set k v).get? k' = if k' = k then some v else m.get? k' := by
  simp [Registry.set, Registry.get?]

theorem Registry.get?_set_self (m : Registry) (k : String) (v : CommandExec) :
    (m.set k v).get? k = some v := by
  simp [Registry.get?_set]

theorem Registry.get?_set_of_ne (m : Registry) {k k' : String} (v : CommandExec)
    (h : k' ≠ k) : (m.set k v).get? k' = m.get? k' := by
  simp [Registry.get?_set, h]

theorem registerLoop_false (m : Registry) (rnd : Nat → Nat) (fuel : Nat) (idStr : String)
    (i : Nat) : registerLoop m rnd fuel false idStr i = some idStr := by
  cases fuel <;> simp [registerLoop]

theorem registerLoop_zero (m : Registry) (rnd : Nat → Nat) (idStr : String) (i : Nat) :
    registerLoop m rnd 0 true idStr i = none := by
  simp [registerLoop]

theorem registerLoop_succ (m : Registry) (rnd : Nat → Nat) (fuel : Nat) (idStr : String)
    (i : Nat) :
    registerLoop m rnd (fuel + 1) true idStr i =
      registerLoop m rnd fuel (m.get? (candidate rnd i)).isSome (candidate rnd i) (i + 1) := by
  simp [registerLoop, candidate]

/-- The loop returns the first candidate that is not a key, as soon as the fuel
reaches it, and nothing before. -/
theorem registerLoop_first (m : Registry) (rnd : Nat → Nat) :
    ∀ (n i fuel : Nat) (idStr : String),
      (∀ j, j < n → (m.get? (candidate rnd (i + j))).isSome = true) →
      m.get? (candidate rnd (i + n)) = none →
      registerLoop m rnd fuel true idStr i =
        if n < fuel then some (candidate rnd (i + n)) else none := by
  intro n
  induction n with
  | zero =>
    intro i fuel idStr _ hfree
    cases fuel with
    | zero => simp [registerLoop_zero]
    | succ fuel =>
      rw [registerLoop_succ]
      simp only [Nat.add_zero] at hfree
      simp [hfree, registerLoop_false]
  | succ n ih =>
    intro i fuel idStr hused hfree
    cases fuel with
    | zero => simp [registerLoop_zero]
    | succ fuel =>
      rw [registerLoop_succ]
      have h0 := hused 0 (Nat.succ_pos n)
      simp only [Nat.add_zero] at h0
      rw [h0]
      have hused' : ∀ j, j < n → (m.get? (candidate rnd (i + 1 + j))).isSome = true := by
        intro j hj
        have := hused (j + 1) (Nat.succ_lt_succ hj)
        rwa [show i + (j + 1) = i + 1 + j by omega] at this
      have hfree' : m.get? (candidate rnd (i + 1 + n)) = none := by
        rwa [show i + (n + 1) = i + 1 + n by omega] at hfree
      rw [ih (i + 1) fuel (candidate rnd i) hused' hfree']
      simp [show i + 1 + n = i + (n + 1) by omega]

/-- C1: for every registry and every stream of random numbers in which some
candidate ID is unused, `registerNewCmd` returns (with any fuel beyond the index
`k` of the first unused candidate, and not with less) the ID `"cmd-"` followed
by the decimal `k`-th number; that ID was not a key before the call; afterwards
it is mapped to the record with that ID, status IN PROGRESS and no results, and
every other key is mapped as before. -/
theorem registerNewCmd_fresh (a : Agent) (rnd : Nat → Nat)
    (h : ∃ k, a.executions.get? ("cmd-" ++ Itoa (rnd k)) = none) :
    ∃ (k : Nat) (id : String) (a' : Agent),
      (∀ fuel, k < fuel → registerNewCmd a rnd fuel = some (id, a')) ∧
      (∀ fuel, fuel ≤ k → registerNewCmd a rnd fuel = none) ∧
      id = "cmd-" ++ Itoa (rnd k) ∧
      a.executions.get? id = none ∧
      a'.executions.get? id = some { ID := id, Status := inprogress, Results := [] } ∧
      (∀ k', k' ≠ id → a'.executions.get? k' = a.executions.get? k') ∧
      (∀ k' v, a.executions.get? k' = some v → a'.executions.get? k' = some v) ∧
      a'.completed = a.completed ∧ a'.port = a.port := by
  classical
  have h' : ∃ k, a.executions.get? (candidate rnd k) = none := h
  let k := Nat.find h'
  have hfree : a.executions.get? (candidate rnd k) = none := Nat.find_spec h'
  have hused : ∀ j, j < k → (a.executions.get? (candidate rnd (0 + j))).isSome = true := by
    intro j hj
    have := Nat.find_min h' hj
    rw [Nat.zero_add]
    cases hg : a.executions.get? (candidate rnd j) with
    | none => exact absurd hg this
    | some v => rfl
  have hloop : ∀ fuel, registerLoop a.executions rnd fuel true "" 0 =
      if k < fuel then some (candidate rnd k) else none := by
    intro fuel
    have := registerLoop_first a.executions rnd k 0 fuel "" hused (by rwa [Nat.zero_add])
    rwa [Nat.zero_add] at this
  let exec : CommandExec := { ID := candidate rnd k, Status := inprogress, Results := [] }
  let a' : Agent := { a with executions := a.executions.set (candidate rnd k) exec }
  refine ⟨k, candidate rnd k, a', ?_, ?_, rfl, hfree, ?_, ?_, ?_, rfl, rfl⟩
  · intro fuel hk
    simp [registerNewCmd, hloop, hk]
  · intro fuel hk
    simp [registerNewCmd, hloop, Nat.not_lt.mpr hk]
  · exact Registry.get?_set_self _ _ _
  · intro k' hk'
    exact Registry.get?_set_of_ne _ _ hk'
  · intro k' v hv
    have hne : k' ≠ candidate rnd k := by
      intro heq
      rw [heq, hfree] at hv
      exact Option.noConfusion hv
    show (a.executions.set _ _).get? k' = some v
    rw [Registry.get?_set_of_ne _ _ hne]
    exact hv

/-- C1 at the registry holding `cmd-7` and `cmd-8` with the stream 7, 8, 9, ... -/
theorem registerNewCmd_fresh_witness :
    (∃ k, agentTwo.executions.get? ("cmd-" ++ Itoa (streamFrom7 k)) = none) ∧
    ∃ (k : Nat) (id : String) (a' : Agent),
      (∀ fuel, k < fuel → registerNewCmd agentTwo streamFrom7 fuel = some (id, a')) ∧
      (∀ fuel, fuel ≤ k → registerNewCmd agentTwo streamFrom7 fuel = none) ∧
      id = "cmd-" ++ Itoa (streamFrom7 k) ∧
      agentTwo.executions.get? id = none ∧
      a'.executions.get? id = some { ID := id, Status := inprogress, Results := [] } ∧
      (∀ k', k' ≠ id → a'.executions.get? k' = agentTwo.executions.get? k') ∧
      (∀ k' v, agentTwo.executions.get? k' = some v → a'.executions.get? k' = some v) ∧
      a'.completed = agentTwo.completed ∧ a'.port = agentTwo.port :=
  ⟨⟨2, by decide⟩, registerNewCmd_fresh agentTwo streamFrom7 ⟨2, by decide⟩⟩

/-! ### statusHandler -/

theorem lastIndexFrom_of_not_mem (c : Char) :
    ∀ (cs : List Char) (i : Nat) (acc : Int), c ∉ cs → lastIndexFrom c cs i acc = acc := by
  intro cs
  induction cs with
  | nil => intro i acc _; rfl
  | cons x xs ih =>
    intro i acc hc
    have hx : x ≠ c := fun e => hc (e ▸ List.mem_cons_self x xs)
    have hxs : c ∉ xs := fun e => hc (List.mem_cons_of_mem x e)
    simp [lastIndexFrom, hx, ih (i + 1) acc hxs]

theorem lastIndexFrom_split (c : Char) :
    ∀ (pre tail : List Char) (i : Nat) (acc : Int), c ∉ tail →
      lastIndexFrom c (pre ++ c :: tail) i acc = ((i + pre.length : Nat) : Int) := by
  intro pre
  induction pre with
  | nil =>
    intro tail i acc hc
    simp [lastIndexFrom, lastIndexFrom_of_not_mem c tail (i + 1) _ hc]
  | cons x xs ih =>
    intro tail i acc hc
    show lastIndexFrom c (xs ++ c :: tail) (i + 1) (if x = c then (i : Int) else acc) = _
    rw [ih tail (i + 1) _ hc]
    simp only [List.length_cons]
    congr 1
    omega

/-- A list that holds `c` splits at the last occurrence of `c`. -/
theorem exists_last_split (c : Char) :
    ∀ cs : List Char, c ∈ cs → ∃ pre tail, cs = pre ++ c :: tail ∧ c ∉ tail := by
  intro cs
  induction cs with
  | nil => intro h; exact absurd h (List.not_mem_nil c)
  | cons x xs ih =>
    intro h
    by_cases hxs : c ∈ xs
    · obtain ⟨pre, tail, he, ht⟩ := ih hxs
      exact ⟨x :: pre, tail, by rw [he]; rfl, ht⟩
    · have hx : c = x := by
        rcases List.mem_cons.mp h with h | h
        · exact h
        · exact absurd h hxs
      exact ⟨[], xs, by rw [hx]; rfl, hxs⟩

/-- The split of a list at the last occurrence of `c` is unique. -/
theorem last_split_unique (c : Char) :
    ∀ (pre pre' tail tail' : List Char), pre ++ c :: tail = pre' ++ c :: tail' →
      c ∉ tail → c ∉ tail' → tail = tail' := by
  intro pre pre' tail tail' he ht ht'
  have h1 := lastIndexFrom_split c pre tail 0 (-1) ht
  have h2 := lastIndexFrom_split c pre' tail' 0 (-1) ht'
  rw [he, h2] at h1
  have hlen : pre'.length = pre.length := by
    have := Int.ofNat.inj h1
    omega
  have := List.append_inj he hlen.symm
  exact (List.cons.inj this.2).2

/-- What `statusHandler` does on a GET request, by the shape of the path. -/
theorem statusHandler_get (a : Agent) (w : ResponseWriter) (r : Request)
    (hget : r.Method = "GET") :
    ('/' ∉ r.Path.data →
      statusHandler a w r =
        (a, httpError w "Invalid request, missing command ID" StatusBadRequest)) ∧
    (∀ pre id, r.Path.data = pre ++ '/' :: id → '/' ∉ id →
      statusHandler a w r =
        match a.executions.get? (String.mk id) with
        | none => (a, httpError w ("Unknown command ID " ++ String.mk id) StatusBadRequest)
        | some exec => (a, Write w (.exec exec))) := by
  constructor
  · intro h
    have : LastIndex r.Path '/' = -1 := lastIndexFrom_of_not_mem '/' r.Path.data 0 (-1) h
    simp [statusHandler, hget, this]
  · intro pre id he hid
    have hidx : LastIndex r.Path '/' = ((0 + pre.length : Nat) : Int) := by
      unfold LastIndex
      rw [he]
      exact lastIndexFrom_split '/' pre id 0 (-1) hid
    have hne : ¬ (((0 + pre.length : Nat) : Int) = -1) := by omega
    have hdrop : r.Path.data.drop ((((0 + pre.length : Nat) : Int) + 1).toNat) = id := by
      rw [he]
      have : ((((0 + pre.length : Nat) : Int) + 1).toNat) = pre.length + 1 := by omega
      rw [this]
      simp
    simp only [statusHandler, hget, hidx, hne, hdrop]
    simp

/-- C4: on a GET request `statusHandler` responds with bad-request exactly when
the path has no text after a last `/` that is a key of the registry (no `/` at
all, or the text after the last `/` is not a key); when that text is a key, the
response is `StatusOK` with the record stored for it; the agent is unchanged. -/
theorem statusHandler_spec (a : Agent) (r : Request) (hget : r.Method = "GET") :
    ((statusHandler a newRecorder r).2.Code = some StatusBadRequest ↔
      ¬ ∃ pre id, r.Path.data = pre ++ '/' :: id ∧ '/' ∉ id ∧
        (a.executions.get? (String.mk id)).isSome = true) ∧
    (∀ pre id exec, r.Path.data = pre ++ '/' :: id → '/' ∉ id →
      a.executions.get? (String.mk id) = some exec →
      (statusHandler a newRecorder r).2 = { Code := some StatusOK, Body := [.exec exec] }) ∧
    (statusHandler a newRecorder r).1 = a := by
  have hg := statusHandler_get a newRecorder r hget
  refine ⟨?_, ?_, ?_⟩
  · by_cases hmem : '/' ∈ r.Path.data
    · obtain ⟨pre, id, he, hid⟩ := exists_last_split '/' r.Path.data hmem
      rw [hg.2 pre id he hid]
      cases hget? : a.executions.get? (String.mk id) with
      | none =>
        constructor
        · rintro _ ⟨pre', id', he', hid', hsome⟩
          have : id = id' := last_split_unique '/' pre pre' id id' (he ▸ he') hid hid'
          rw [← this, hget?] at hsome
          exact Bool.noConfusion hsome
        · intro _
          rfl
      | some exec =>
        constructor
        · intro hcode
          have h200 : (Write newRecorder (Chunk.exec exec)).Code = some StatusOK := rfl
          have hcode' : (Write newRecorder (Chunk.exec exec)).Code = some StatusBadRequest :=
            hcode
          rw [h200] at hcode'
          exact absurd hcode' (by decide)
        · intro hno
          exact absurd ⟨pre, id, he, hid, by rw [hget?]; rfl⟩ hno
    · rw [hg.1 hmem]
      constructor
      · rintro _ ⟨pre, id, he, _, _⟩
        exact hmem (by rw [he]; simp)
      · intro _
        rfl
  · intro pre id exec he hid hget?
    rw [hg.2 pre id he hid, hget?]
    rfl
  · by_cases hmem : '/' ∈ r.Path.data
    · obtain ⟨pre, id, he, hid⟩ := exists_last_split '/' r.Path.data hmem
      rw [hg.2 pre id he hid]
      cases a.executions.get? (String.mk id) <;> rfl
    · rw [hg.1 hmem]

/-- C4 at the request `/status/invalid` on a new agent. -/
theorem statusHandler_spec_witness :
    invalidStatusRequest.Method = "GET" ∧
    (((statusHandler (NewAgent 8080) newRecorder invalidStatusRequest).2.Code =
        some StatusBadRequest ↔
      ¬ ∃ pre id, invalidStatusRequest.Path.data = pre ++ '/' :: id ∧ '/' ∉ id ∧
        ((NewAgent 8080).executions.get? (String.mk id)).isSome = true) ∧
    (∀ pre id exec, invalidStatusRequest.Path.data = pre ++ '/' :: id → '/' ∉ id →
      (NewAgent 8080).executions.get? (String.mk id) = some exec →
      (statusHandler (NewAgent 8080) newRecorder invalidStatusRequest).2 =
        { Code := some StatusOK, Body := [.exec exec] }) ∧
    (statusHandler (NewAgent 8080) newRecorder invalidStatusRequest).1 = NewAgent 8080) :=
  ⟨by decide, statusHandler_spec (NewAgent 8080) invalidStatusRequest (by decide)⟩

/-- The test `TestInvalidStatus`: a new agent answers `/status/invalid` with bad-request. -/
theorem statusHandler_invalid :
    (statusHandler (NewAgent 8080) newRecorder invalidStatusRequest).2 =
      { Code := some StatusBadRequest, Body := [.line "Unknown command ID invalid"] } := by
  decide

/-- A stored ID is answered with its record. -/
theorem statusHandler_known :
    (statusHandler agentTwo newRecorder { Method := "GET", Path := "/status/cmd-8", Body := "" }).2 =
      { Code := some StatusOK,
        Body := [.exec { ID := "cmd-8", Status := success, Results := ["hello"] }] } := by
  decide

/-! ### execute -/

theorem failure_ne_success : failure ≠ success := by decide

theorem success_ne_inprogress : success ≠ inprogress := by decide

theorem failure_ne_inprogress : failure ≠ inprogress := by decide

/-- C7: when `Output()` returns an error, `execute` sends exactly one record: it
carries the ID, the status FAILURE and as only result the text of the error; no
record it sends has the status SUCCESS. -/
theorem execute_failure (run : String → List String → String × Option String)
    (cmd : Command) (id out e : String) (h : run cmd.Command cmd.Args = (out, some e)) :
    execute run cmd id = [{ ID := id, Status := failure, Results := [e] }] ∧
    (∀ rec ∈ execute run cmd id, rec.Status ≠ success ∧ rec.Results.length = 1) := by
  have hex : execute run cmd id = [{ ID := id, Status := failure, Results := [e] }] := by
    simp [execute, h]
  refine ⟨hex, ?_⟩
  intro rec hrec
  rw [hex, List.mem_singleton] at hrec
  subst hrec
  exact ⟨failure_ne_success, rfl⟩

/-- C7 at a program that is not found. -/
theorem execute_failure_witness :
    execute runMissing missingCmd "cmd-1" =
      [{ ID := "cmd-1", Status := failure, Results := ["executable file not found in $PATH"] }] ∧
    (∀ rec ∈ execute runMissing missingCmd "cmd-1",
      rec.Status ≠ success ∧ rec.Results.length = 1) :=
  execute_failure runMissing missingCmd "cmd-1" "" "executable file not found in $PATH" rfl

theorem takeWhile_line (l rest : List Char) (h : '\n' ∉ l) :
    (l ++ '\n' :: rest).takeWhile (fun c => c != '\n') = l := by
  induction l with
  | nil => simp
  | cons x xs ih =>
    have hx : x ≠ '\n' := fun e => h (e ▸ List.mem_cons_self x xs)
    have hxs : '\n' ∉ xs := fun e => h (List.mem_cons_of_mem x e)
    have hb : (x != '\n') = true := by simp [hx]
    simp [List.takeWhile, hb, ih hxs]

theorem dropWhile_line (l rest : List Char) (h : '\n' ∉ l) :
    (l ++ '\n' :: rest).dropWhile (fun c => c != '\n') = '\n' :: rest := by
  induction l with
  | nil => simp
  | cons x xs ih =>
    have hx : x ≠ '\n' := fun e => h (e ▸ List.mem_cons_self x xs)
    have hxs : '\n' ∉ xs := fun e => h (List.mem_cons_of_mem x e)
    have hb : (x != '\n') = true := by simp [hx]
    simp [List.dropWhile, hb, ih hxs]

/-- The call `Scan` on an input that starts with a terminated line. -/
theorem scan_line (l rest : List Char) (h : '\n' ∉ l) :
    scan (l ++ '\n' :: rest) =
      if maxScanTokenSize ≤ byteLen l then none else some (String.mk (dropCR l), rest) := by
  have hne : l ++ '\n' :: rest ≠ [] := by simp
  simp [scan, hne, takeWhile_line l rest h, dropWhile_line l rest h]

/-- A successful `Scan` leaves less input than it was given. -/
theorem scan_rest_length (data rest : List Char) (tok : String)
    (h : scan data = some (tok, rest)) : rest.length < data.length := by
  unfold scan at h
  by_cases hnil : data = []
  · rw [if_pos hnil] at h
    exact Option.noConfusion h
  · rw [if_neg hnil] at h
    simp only at h
    split at h
    · exact Option.noConfusion h
    · have hrest : (data.dropWhile (fun c => c != '\n')).drop 1 = rest :=
        congrArg Prod.snd (Option.some.inj h)
      have hle := (List.dropWhile_sublist (l := data) (fun c => c != '\n')).length_le
      have hpos : 0 < data.length := List.length_pos.mpr hnil
      rw [← hrest, List.length_drop]
      omega

/-- The scan loop does not depend on its fuel once the fuel exceeds the length
of the input: the fuel `len(out) + 1` that `execute` is given never cuts the
loop short. -/
theorem scanLoop_fuel :
    ∀ (n : Nat) (data : List Char) (res : List String) (fuel fuel' : Nat),
      data.length ≤ n → data.length < fuel → data.length < fuel' →
      scanLoop fuel data res = scanLoop fuel' data res := by
  intro n
  induction n with
  | zero =>
    intro data res fuel fuel' hn hf hf'
    have hnil : data = [] := List.length_eq_zero.mp (Nat.le_zero.mp hn)
    cases fuel with
    | zero => exact absurd hf (Nat.not_lt_zero _)
    | succ fuel =>
      cases fuel' with
      | zero => exact absurd hf' (Nat.not_lt_zero _)
      | succ fuel' => simp [scanLoop, scan, hnil]
  | succ n ih =>
    intro data res fuel fuel' hn hf hf'
    cases fuel with
    | zero => exact absurd hf (Nat.not_lt_zero _)
    | succ fuel =>
      cases fuel' with
      | zero => exact absurd hf' (Nat.not_lt_zero _)
      | succ fuel' =>
        simp only [scanLoop]
        cases hs : scan data with
        | none => rfl
        | some p =>
          rcases p with ⟨tok, rest⟩
          have hlt := scan_rest_length data rest tok hs
          exact ih rest (res ++ [tok]) fuel fuel' (by omega) (by omega) (by omega)

theorem byteLen_replicate (n : Nat) : byteLen (List.replicate n 'a') = n := by
  have h1 : Char.utf8Size 'a' = 1 := by decide
  simp [byteLen, List.map_replicate, List.sum_replicate, h1]

theorem not_mem_replicate_a (n : Nat) : '\n' ∉ List.replicate n 'a' := by
  intro h
  have := List.eq_of_mem_replicate h
  exact absurd this (by decide)

/-- The scan loop collects nothing when the first line does not fit the buffer. -/
theorem scanLoop_long (l rest : List Char) (fuel : Nat) (h : '\n' ∉ l)
    (hlen : maxScanTokenSize ≤ byteLen l) : scanLoop fuel (l ++ '\n' :: rest) [] = [] := by
  cases fuel with
  | zero => rfl
  | succ fuel =>
    have hscan : scan (l ++ '\n' :: rest) = none := by
      rw [scan_line l rest h, if_pos hlen]
    simp only [scanLoop, hscan]

/-- C6, the code at the failing input: for the output `longOutput`, which has
the two lines `aaa...a` and `second`, `execute` sends a SUCCESS record whose
results are empty. -/
theorem execute_long_line_dropped (cmd : Command) (id : String) :
    execute runLong cmd id = [{ ID := id, Status := success, Results := [] }] := by
  have hloop : ∀ fuel, scanLoop fuel longOutput.data [] = [] := fun fuel =>
    scanLoop_long (List.replicate maxScanTokenSize 'a') "second\n".data fuel
      (not_mem_replicate_a _) (Nat.le_of_eq (byteLen_replicate _).symm)
  simp only [execute, runLong]
  rw [hloop]

theorem length_le_unlines : ∀ ls : List (List Char), ls.length ≤ (unlines ls).length := by
  intro ls
  induction ls with
  | nil => simp [unlines]
  | cons l ls ih =>
    simp only [unlines, List.length_cons, List.length_append]
    omega

/-- Below the token limit the scan loop collects every line, in order. -/
theorem scanLoop_unlines :
    ∀ (ls : List (List Char)) (fuel : Nat) (res : List String),
      (∀ l ∈ ls, '\n' ∉ l ∧ byteLen l < maxScanTokenSize) → ls.length < fuel →
      scanLoop fuel (unlines ls) res = res ++ ls.map (fun l => String.mk (dropCR l)) := by
  intro ls
  induction ls with
  | nil =>
    intro fuel res _ hf
    cases fuel with
    | zero => exact absurd hf (Nat.lt_irrefl 0)
    | succ fuel => simp [unlines, scanLoop, scan]
  | cons l ls ih =>
    intro fuel res hl hf
    cases fuel with
    | zero => exact absurd hf (Nat.not_lt_zero _)
    | succ fuel =>
      have h1 := hl l (List.mem_cons_self l ls)
      have hscan : scan (l ++ '\n' :: unlines ls) = some (String.mk (dropCR l), unlines ls) := by
        rw [scan_line l _ h1.1, if_neg (Nat.not_le.mpr h1.2)]
      have hrest : ∀ l' ∈ ls, '\n' ∉ l' ∧ byteLen l' < maxScanTokenSize :=
        fun l' hl' => hl l' (List.mem_cons_of_mem l hl')
      simp only [unlines, scanLoop, hscan]
      rw [ih fuel _ hrest (Nat.lt_of_succ_lt_succ hf)]
      simp

/-- On an output made of newline-terminated lines that are each shorter than
`maxScanTokenSize` bytes and do not end in a carriage return, `execute` sends
one SUCCESS record whose results are exactly these lines, in order. -/
theorem execute_success_lines (run : String → List String → String × Option String)
    (cmd : Command) (id : String) (ls : List (List Char))
    (hrun : run cmd.Command cmd.Args = (String.mk (unlines ls), none))
    (hls : ∀ l ∈ ls, '\n' ∉ l ∧ byteLen l < maxScanTokenSize ∧ l.getLast? ≠ some '\r') :
    execute run cmd id =
      [{ ID := id, Status := success, Results := ls.map (fun l => String.mk l) }] := by
  have hloop := scanLoop_unlines ls ((unlines ls).length + 1) []
    (fun l hl => ⟨(hls l hl).1, (hls l hl).2.1⟩) (Nat.lt_succ_of_le (length_le_unlines ls))
  have hmap : ls.map (fun l => String.mk (dropCR l)) = ls.map (fun l => String.mk l) := by
    apply List.map_congr_left
    intro l hl
    simp [dropCR, (hls l hl).2.2]
  simp only [execute, hrun]
  rw [hloop, hmap]
  simp

/-- Scenario A: for the output `hello` and a newline the results are `["hello"]`. -/
theorem execute_echo_hello :
    execute runEcho echoCmd "cmd-1" =
      [{ ID := "cmd-1", Status := success, Results := ["hello"] }] := by
  decide

/-! ### findAndStop, its handler and the decoding of the request body -/

/-- C8: for a PUT or POST request whose body decodes to a command naming a
process: when `findAndStop` succeeds for that name, the response is `StatusOK`
with one `CommandExec` whose results are the single line `Process <name> was
stopped`; when `findAndStop` fails, the response is bad-request, and its body
is the line with the cause and holds no `CommandExec`. -/
theorem findAndStopHandler_spec (env : Env) (r : Request) (cmd : Command)
    (hm : r.Method = "PUT" ∨ r.Method = "POST") (hd : env.decode r.Body = (cmd, none)) :
    ((findAndStop env cmd.Command).err = none →
      (findAndStopHandler env newRecorder r).1 =
        { Code := some StatusOK,
          Body := [.exec { ID := "", Status := "",
                           Results := ["Process " ++ cmd.Command ++ " was stopped"] }] }) ∧
    (∀ e, (findAndStop env cmd.Command).err = some e →
      (findAndStopHandler env newRecorder r).1 =
        { Code := some StatusBadRequest, Body := [.line ("Could not stop process " ++ e)] } ∧
      ∀ x, Chunk.exec x ∉ (findAndStopHandler env newRecorder r).1.Body) := by
  have hmeth : ¬ (r.Method ≠ "PUT" ∧ r.Method ≠ "POST") := by
    rintro ⟨h1, h2⟩
    rcases hm with h | h
    · exact h1 h
    · exact h2 h
  constructor
  · intro hok
    simp only [findAndStopHandler, hmeth, hd, hok, if_false]
    rfl
  · intro e he
    have hresp : (findAndStopHandler env newRecorder r).1 =
        { Code := some StatusBadRequest, Body := [.line ("Could not stop process " ++ e)] } := by
      simp only [findAndStopHandler, hmeth, hd, he, if_false]
      rfl
    refine ⟨hresp, ?_⟩
    intro x hx
    rw [hresp] at hx
    simp at hx

/-- C8 at the request of `TestStop`: the first result line is `Process tail was stopped`. -/
theorem findAndStopHandler_spec_witness :
    (findAndStopHandler envTail newRecorder stopRequest).1 =
      { Code := some StatusOK,
        Body := [.exec { ID := "", Status := "", Results := ["Process tail was stopped"] }] } :=
  (findAndStopHandler_spec envTail stopRequest { Command := "tail", Args := [], Sync := true }
    (Or.inr rfl) rfl).1 (by decide)

/-- A body that does not decode makes `execHandler` respond with bad-request
and return: the agent is unchanged and nothing is launched. -/
theorem execHandlerStart_bad_body (env : Env) (a : Agent) (r : Request) (cmd : Command)
    (e : String) (rnd : Nat → Nat) (fuel : Nat)
    (hm : r.Method = "PUT" ∨ r.Method = "POST") (hd : env.decode r.Body = (cmd, some e)) :
    execHandlerStart env a newRecorder r rnd fuel =
      some (a, .rejected { Code := some StatusBadRequest, Body := [.line e] }) := by
  have hmeth : ¬ (r.Method ≠ "PUT" ∧ r.Method ≠ "POST") := by
    rintro ⟨h1, h2⟩
    rcases hm with h | h
    · exact h1 h
    · exact h2 h
  simp only [execHandlerStart, hmeth, hd, if_false]
  rfl

/-- A body that does not decode does not stop `findAndStopHandler`: after the
bad-request header it calls `findAndStop` with the name left in `cmd`. -/
theorem findAndStopHandler_bad_body (env : Env) (r : Request) (cmd : Command) (e : String)
    (hm : r.Method = "PUT" ∨ r.Method = "POST") (hd : env.decode r.Body = (cmd, some e)) :
    (findAndStopHandler env newRecorder r).1.Code = some StatusBadRequest ∧
    (findAndStopHandler env newRecorder r).2 = some (findAndStop env cmd.Command) ∧
    (findAndStop env cmd.Command).lookups = [getPsCommand cmd.Command] := by
  have hmeth : ¬ (r.Method ≠ "PUT" ∧ r.Method ≠ "POST") := by
    rintro ⟨h1, h2⟩
    rcases hm with h | h
    · exact h1 h
    · exact h2 h
  refine ⟨?_, ?_, ?_⟩
  · simp only [findAndStopHandler, hmeth, hd, if_false]
    cases (findAndStop env cmd.Command).err <;> rfl
  · simp only [findAndStopHandler, hmeth, hd, if_false]
    cases (findAndStop env cmd.Command).err <;> rfl
  · simp only [findAndStop, getPsCommand]
    split
    · rfl
    · split
      · rfl
      · split
        · rfl
        · split <;> rfl

/-- C10, the code at the failing input: the body does not decode, the response
is bad-request, and still the listing command is run and process 4242 is killed. -/
theorem findAndStopHandler_bad_body_kills :
    findAndStopHandler envBadBody newRecorder badBodyRequest =
      ({ Code := some StatusBadRequest,
         Body := [.line "",
                  .exec { ID := "", Status := "", Results := ["Process tail was stopped"] }] },
       some { err := none, lookups := [("ps", ["-C", "tail", "-o", "pid="])],
              signals := [4242] }) := by
  decide

theorem scanFirst_eq (out : String) :
    scanFirst out =
      if maxScanTokenSize ≤ byteLen (firstLine out).data then ""
      else String.mk (dropCR (firstLine out).data) := by
  unfold scanFirst scan firstLine
  by_cases hnil : out.data = []
  · simp [hnil, dropCR]
  · by_cases hlen : maxScanTokenSize ≤ byteLen (out.data.takeWhile (fun c => c != '\n'))
    · simp [hnil, hlen]
    · simp [hnil, hlen]

theorem dropWhile_append_singleton (p : Char → Bool) (c : Char) (hc : p c = true) :
    ∀ l : List Char, ((l ++ [c]).dropWhile p).reverse.dropWhile p =
      (l.dropWhile p).reverse.dropWhile p := by
  intro l
  induction l with
  | nil => simp [List.dropWhile, hc]
  | cons x xs ih =>
    by_cases hx : p x = true
    · simp [List.dropWhile, hx, ih]
    · simp [List.dropWhile, hx, hc]

theorem trimSpace_dropCR (l : List Char) : trimSpace (dropCR l) = trimSpace l := by
  unfold dropCR
  by_cases h : l.getLast? = some '\r'
  · rw [if_pos h]
    have hl : l = l.dropLast ++ ['\r'] := by
      have hne : l ≠ [] := by
        intro e
        rw [e] at h
        exact Option.noConfusion h
      have := List.dropLast_append_getLast hne
      rw [List.getLast?_eq_getLast l hne] at h
      rw [Option.some.inj h] at this
      exact this.symm
    have hcr : isSpace '\r' = true := by decide
    unfold trimSpace
    conv_rhs => rw [hl]
    rw [dropWhile_append_singleton isSpace '\r' hcr]
  · rw [if_neg h]

theorem TrimSpace_scanFirst (out : String)
    (h : byteLen (firstLine out).data < maxScanTokenSize) :
    TrimSpace (scanFirst out) = TrimSpace (firstLine out) := by
  rw [scanFirst_eq, if_neg (Nat.not_le.mpr h)]
  unfold TrimSpace
  rw [trimSpace_dropCR]

theorem Atoi_empty (quote : String → String) :
    Atoi quote (TrimSpace "") = .error (numError quote "" "invalid syntax") := by
  rfl

/-- The function `findAndStop` after a listing command that ran without error. -/
theorem findAndStop_listed (env : Env) (procName out : String)
    (hps : env.output "ps" ["-C", procName, "-o", "pid="] = (out, none)) :
    findAndStop env procName =
      match Atoi env.quote (TrimSpace (scanFirst out)) with
      | .error e =>
        { err := some ("Failed to parse process ID for process " ++ procName ++ ": " ++ e),
          lookups := [("ps", ["-C", procName, "-o", "pid="])], signals := [] }
      | .ok pid =>
        match env.findProcess pid with
        | some e =>
          { err := some ("Failed to find process with name " ++ procName ++ " (PID: " ++
              Itoa pid ++ "): " ++ e),
            lookups := [("ps", ["-C", procName, "-o", "pid="])], signals := [] }
        | none =>
          match env.kill pid with
          | some e =>
            { err := some ("Failed to stop process " ++ procName ++ " (PID:" ++
                Itoa pid ++ "): " ++ e),
              lookups := [("ps", ["-C", procName, "-o", "pid="])], signals := [pid] }
          | none =>
            { err := none, lookups := [("ps", ["-C", procName, "-o", "pid="])],
              signals := [pid] } := by
  simp only [findAndStop, getPsCommand, hps, scanFirst]

/-- C9, as amended: after a listing command that ran without error, with
`firstLine out` the text of its output before the first newline.
(1) When `Atoi` does not parse the trimmed first line (empty output,
non-numeric text, a number outside the range of `int`), or `os.FindProcess`
rejects the parsed number, `findAndStop` calls `Kill` on no process and returns
an error whose text holds the process name.
(2) When `Atoi` parses the line to `pid` and `os.FindProcess` accepts it, which
on Linux it does for every number, also zero and negative ones, `Kill` is called
on no process other than `pid`, and it is called on `pid` when the line fits the
scanner's buffer.
(3) The result depends on the first line only: any output with the same first
line gives the same result. -/
theorem findAndStop_first_line (env : Env) (procName out : String)
    (hps : env.output "ps" ["-C", procName, "-o", "pid="] = (out, none)) :
    ((¬ ∃ pid, Atoi env.quote (TrimSpace (firstLine out)) = .ok pid ∧
        env.findProcess pid = none) →
      (findAndStop env procName).signals = [] ∧
      ∃ pre post, (findAndStop env procName).err = some (pre ++ procName ++ post)) ∧
    (∀ pid, Atoi env.quote (TrimSpace (firstLine out)) = .ok pid →
      env.findProcess pid = none →
      (∀ p ∈ (findAndStop env procName).signals, p = pid) ∧
      (byteLen (firstLine out).data < maxScanTokenSize →
        (findAndStop env procName).signals = [pid])) ∧
    (∀ out' : String, firstLine out' = firstLine out →
      findAndStop { env with output := fun _ _ => (out', none) } procName =
        findAndStop env procName) := by
  have hfs := findAndStop_listed env procName out hps
  have hlong : maxScanTokenSize ≤ byteLen (firstLine out).data →
      (findAndStop env procName).signals = [] ∧
      ∃ pre post, (findAndStop env procName).err = some (pre ++ procName ++ post) := by
    intro hlen
    have hres : scanFirst out = "" := by rw [scanFirst_eq, if_pos hlen]
    rw [hfs, hres, Atoi_empty]
    exact ⟨rfl, "Failed to parse process ID for process ",
      ": " ++ numError env.quote "" "invalid syntax", by simp [String.append_assoc]⟩
  refine ⟨?_, ?_, ?_⟩
  · intro hinv
    by_cases hlen : maxScanTokenSize ≤ byteLen (firstLine out).data
    · exact hlong hlen
    · have htrim := TrimSpace_scanFirst out (Nat.not_le.mp hlen)
      rw [hfs, htrim]
      cases hat : Atoi env.quote (TrimSpace (firstLine out)) with
      | error e =>
        exact ⟨rfl, "Failed to parse process ID for process ", ": " ++ e,
          by simp [String.append_assoc]⟩
      | ok pid =>
        cases hfp : env.findProcess pid with
        | none => exact absurd ⟨pid, hat, hfp⟩ hinv
        | some e =>
          refine ⟨by simp only [hfp], "Failed to find process with name ",
            " (PID: " ++ Itoa pid ++ "): " ++ e, ?_⟩
          simp only [hfp, String.append_assoc]
  · intro pid hat hfp
    by_cases hlen : maxScanTokenSize ≤ byteLen (firstLine out).data
    · have := (hlong hlen).1
      rw [this]
      exact ⟨fun p hp => absurd hp (List.not_mem_nil p),
        fun h => absurd hlen (Nat.not_le.mpr h)⟩
    · have htrim := TrimSpace_scanFirst out (Nat.not_le.mp hlen)
      have hsig : (findAndStop env procName).signals = [pid] := by
        rw [hfs, htrim, hat]
        simp only [hfp]
        cases env.kill pid <;> rfl
      rw [hsig]
      exact ⟨fun p hp => List.mem_singleton.mp hp, fun _ => rfl⟩
  · intro out' hfirst
    have hfs' := findAndStop_listed { env with output := fun _ _ => (out', none) } procName out' rfl
    have hscan : scanFirst out' = scanFirst out := by
      rw [scanFirst_eq, scanFirst_eq, hfirst]
    rw [hfs', hfs, hscan]

/-- C9 at a listing whose first line is the text `PID`. -/
theorem findAndStop_first_line_witness :
    ((¬ ∃ pid, Atoi envNotNumeric.quote (TrimSpace (firstLine "  PID\n 4242\n")) = .ok pid ∧
        envNotNumeric.findProcess pid = none) →
      (findAndStop envNotNumeric "tail").signals = [] ∧
      ∃ pre post, (findAndStop envNotNumeric "tail").err = some (pre ++ "tail" ++ post)) ∧
    (∀ pid, Atoi envNotNumeric.quote (TrimSpace (firstLine "  PID\n 4242\n")) = .ok pid →
      envNotNumeric.findProcess pid = none →
      (∀ p ∈ (findAndStop envNotNumeric "tail").signals, p = pid) ∧
      (byteLen (firstLine "  PID\n 4242\n").data < maxScanTokenSize →
        (findAndStop envNotNumeric "tail").signals = [pid])) ∧
    (∀ out' : String, firstLine out' = firstLine "  PID\n 4242\n" →
      findAndStop { envNotNumeric with output := fun _ _ => (out', none) } "tail" =
        findAndStop envNotNumeric "tail") :=
  findAndStop_first_line envNotNumeric "tail" "  PID\n 4242\n" rfl

/-- A first line that is not a number: a parse error naming the process, no signal. -/
theorem findAndStop_not_numeric :
    findAndStop envNotNumeric "tail" =
      { err := some ("Failed to parse process ID for process tail: " ++
          "strconv.Atoi: parsing \"PID\": invalid syntax"),
        lookups := [("ps", ["-C", "tail", "-o", "pid="])], signals := [] } := by
  decide

/-- An empty listing: a parse error naming the process, no signal. -/
theorem findAndStop_empty_output :
    findAndStop { envNotNumeric with output := fun _ _ => ("", none) } "tail" =
      { err := some ("Failed to parse process ID for process tail: " ++
          "strconv.Atoi: parsing \"\": invalid syntax"),
        lookups := [("ps", ["-C", "tail", "-o", "pid="])], signals := [] } := by
  decide

/-- Two processes of the same name: only the first listed is killed. -/
theorem findAndStop_first_of_two :
    findAndStop { envNotNumeric with output := fun _ _ => (" 4242\n 77\n", none) } "tail" =
      { err := none, lookups := [("ps", ["-C", "tail", "-o", "pid="])], signals := [4242] } := by
  decide

/-- A first line that is a number but no process identifier: on Linux
`findAndStop` calls `Kill` with it and returns no error. -/
theorem findAndStop_minus_five :
    Atoi envMinusFive.quote (TrimSpace (firstLine "-5\n")) = .ok (-5) ∧
    isProcessID (-5) = false ∧
    findAndStop envMinusFive "tail" =
      { err := none, lookups := [("ps", ["-C", "tail", "-o", "pid="])], signals := [-5] } :=
  ⟨rfl, by decide, by decide⟩

/-- C9 as stated fails: it is not true that for every output of the listing
command whose trimmed first line is not a valid process identifier `findAndStop`
sends no termination signal. For the output `-5` on Linux it calls `Kill` on
`-5`. -/
theorem findAndStop_invalid_id_signalled :
    ¬ ∀ (env : Env) (procName out : String),
      env.output "ps" ["-C", procName, "-o", "pid="] = (out, none) →
      (¬ ∃ pid, Atoi env.quote (TrimSpace (firstLine out)) = .ok pid ∧
        isProcessID pid = true) →
      (findAndStop env procName).signals = [] := by
  intro hall
  have hnot : ¬ ∃ pid, Atoi envMinusFive.quote (TrimSpace (firstLine "-5\n")) = .ok pid ∧
      isProcessID pid = true := by
    rintro ⟨pid, hat, hvalid⟩
    have hfive : Atoi envMinusFive.quote (TrimSpace (firstLine "-5\n")) = .ok (-5) := rfl
    rw [hfive] at hat
    have hpid : (-5 : Int) = pid := by injection hat
    rw [← hpid] at hvalid
    exact absurd hvalid (by decide)
  have hsig := hall envMinusFive "tail" "-5\n" rfl hnot
  have hkill : (findAndStop envMinusFive "tail").signals = [-5] := by decide
  rw [hkill] at hsig
  exact absurd hsig (by decide)

theorem execute_eq (run : String → List String → String × Option String) (cmd : Command)
    (id : String) : execute run cmd id = [resultOf id (run cmd.Command cmd.Args)] := by
  unfold execute resultOf
  rcases run cmd.Command cmd.Args with ⟨out, err⟩
  cases err <;> rfl

theorem resultOf_ID (id : String) (o : String × Option String) : (resultOf id o).ID = id := by
  unfold resultOf
  rcases o with ⟨out, err⟩
  cases err <;> rfl

theorem resultOf_status (id : String) (o : String × Option String) :
    (o.2 = none → (resultOf id o).Status = success) ∧
    (o.2 ≠ none → (resultOf id o).Status = failure) := by
  unfold resultOf
  rcases o with ⟨out, err⟩
  cases err <;> simp

theorem resultOf_terminal (id : String) (o : String × Option String) :
    (resultOf id o).Status = success ∨ (resultOf id o).Status = failure := by
  rcases o with ⟨out, err⟩
  cases err with
  | none => exact Or.inl ((resultOf_status id (out, none)).1 rfl)
  | some e => exact Or.inr ((resultOf_status id (out, some e)).2 (by simp))

theorem registerLoop_some (m : Registry) (rnd : Nat → Nat) :
    ∀ (fuel : Nat) (ok : Bool) (idStr : String) (i : Nat) (id : String),
      registerLoop m rnd fuel ok idStr i = some id →
      (ok = false ∧ id = idStr) ∨ ((∃ k, id = candidate rnd k) ∧ m.get? id = none) := by
  intro fuel
  induction fuel with
  | zero =>
    intro ok idStr i id h
    cases ok with
    | false =>
      rw [registerLoop_false] at h
      exact Or.inl ⟨rfl, (Option.some.inj h).symm⟩
    | true =>
      rw [registerLoop_zero] at h
      exact Option.noConfusion h
  | succ fuel ih =>
    intro ok idStr i id h
    cases ok with
    | false =>
      rw [registerLoop_false] at h
      exact Or.inl ⟨rfl, (Option.some.inj h).symm⟩
    | true =>
      rw [registerLoop_succ] at h
      rcases ih _ _ _ _ h with ⟨hok, hid⟩ | hfresh
      · right
        refine ⟨⟨i, hid⟩, ?_⟩
        rw [hid]
        cases hg : m.get? (candidate rnd i) with
        | none => rfl
        | some v =>
          rw [hg] at hok
          exact Bool.noConfusion hok
      · exact Or.inr hfresh

/-- What a successful call of `registerNewCmd` returns, whatever the fuel. -/
theorem registerNewCmd_some (a : Agent) (rnd : Nat → Nat) (fuel : Nat) (id : String)
    (a' : Agent) (h : registerNewCmd a rnd fuel = some (id, a')) :
    (∃ k, id = candidate rnd k) ∧ a.executions.get? id = none ∧
    a' = { a with executions :=
            a.executions.set id { ID := id, Status := inprogress, Results := [] } } := by
  unfold registerNewCmd at h
  cases hl : registerLoop a.executions rnd fuel true "" 0 with
  | none =>
    rw [hl] at h
    exact Option.noConfusion h
  | some idStr =>
    rw [hl] at h
    have hp := Option.some.inj h
    have hid : idStr = id := congrArg Prod.fst hp
    have ha : _ = a' := congrArg Prod.snd hp
    subst hid
    rcases registerLoop_some _ _ _ _ _ _ _ hl with ⟨hok, _⟩ | ⟨hk, hfree⟩
    · exact Bool.noConfusion hok
    · exact ⟨hk, hfree, ha.symm⟩

theorem get?_eraseIdx_split {α : Type} :
    ∀ (l : List α) (n : Nat) (x : α), l.get? n = some x →
      ∃ pre post, l = pre ++ x :: post ∧ l.eraseIdx n = pre ++ post := by
  intro l
  induction l with
  | nil => intro n x h; simp at h
  | cons y ys ih =>
    intro n x h
    cases n with
    | zero =>
      simp at h
      exact ⟨[], ys, by simp [h], by simp⟩
    | succ n =>
      simp at h
      obtain ⟨pre, post, he, hr⟩ := ih n x (by simpa using h)
      exact ⟨y :: pre, post, by simp [he], by simp [hr]⟩

theorem execHandlerStart_cases (env : Env) (a a' : Agent) (w : ResponseWriter) (r : Request)
    (rnd : Nat → Nat) (fuel : Nat) (st : ExecStart)
    (h : execHandlerStart env a w r rnd fuel = some (a', st)) :
    (a' = a ∧ ∃ w', st = .rejected w') ∨
    (∃ id, st = .launched id (env.decode r.Body).1 ∧ (env.decode r.Body).2 = none ∧
      registerNewCmd a rnd fuel = some (id, a')) := by
  unfold execHandlerStart at h
  by_cases hm : r.Method ≠ "PUT" ∧ r.Method ≠ "POST"
  · rw [if_pos hm] at h
    have hp := Option.some.inj h
    exact Or.inl ⟨(congrArg Prod.fst hp).symm, _, (congrArg Prod.snd hp).symm⟩
  · rw [if_neg hm] at h
    rcases hd : env.decode r.Body with ⟨cmd, derr⟩
    rw [hd] at h
    cases derr with
    | some e =>
      have hp := Option.some.inj h
      exact Or.inl ⟨(congrArg Prod.fst hp).symm, _, (congrArg Prod.snd hp).symm⟩
    | none =>
      simp only at h
      cases hreg : registerNewCmd a rnd fuel with
      | none =>
        rw [hreg] at h
        exact Option.noConfusion h
      | some p =>
        rcases p with ⟨id, a1⟩
        rw [hreg] at h
        have hp := Option.some.inj h
        have h1 : a1 = a' := congrArg Prod.fst hp
        have h2 : ExecStart.launched id cmd = st := congrArg Prod.snd hp
        exact Or.inr ⟨id, h2.symm, rfl, by rw [h1]⟩

/-- The three kinds of step, by their effect on the state. -/
theorem Sys.step_cases (env : Env) (s s' : Sys) (act : Action)
    (h : Sys.step env s act = some s') :
    s' = s ∨
    (∃ id cmd, s.agent.executions.get? id = none ∧ (∃ k rnd, id = candidate rnd k) ∧
      s' = { agent := { s.agent with executions := s.agent.executions.set id (newExec id) }
             running := s.running ++ [(id, cmd)]
             issued := id :: s.issued
             ran := s.ran }) ∨
    (∃ id cmd o pre post, s.running = pre ++ (id, cmd) :: post ∧
      s.agent.completed.length + 1 ≤ completedCap ∧
      s' = { agent := { s.agent with completed := s.agent.completed ++ [resultOf id o] }
             running := pre ++ post
             issued := s.issued
             ran := (id, o) :: s.ran }) ∨
    (∃ res rest, s.agent.completed = res :: rest ∧
      s' = { agent := { s.agent with executions := s.agent.executions.set res.ID res
                                     completed := rest }
             running := s.running
             issued := s.issued
             ran := s.ran }) := by
  cases act with
  | exec r rnd fuel =>
    simp only [Sys.step] at h
    cases hst : execHandlerStart env s.agent newRecorder r rnd fuel with
    | none => rw [hst] at h; exact Option.noConfusion h
    | some p =>
      rcases p with ⟨a, st⟩
      rw [hst] at h
      cases st with
      | rejected w =>
        simp only at h
        have ha : a = s.agent := by
          rcases execHandlerStart_cases _ _ _ _ _ _ _ _ hst with ⟨ha, _⟩ | ⟨id, hl, _⟩
          · exact ha
          · exact ExecStart.noConfusion hl
        left
        rw [← Option.some.inj h, ha]
      | launched id cmd =>
        simp only at h
        have hreg : registerNewCmd s.agent rnd fuel = some (id, a) := by
          rcases execHandlerStart_cases _ _ _ _ _ _ _ _ hst with ⟨_, w', hw⟩ | ⟨id', hl, _, hreg⟩
          · exact ExecStart.noConfusion hw
          · have h3 : id = id' := by injection hl
            rw [h3]
            exact hreg
        obtain ⟨⟨k, hk⟩, hfree, ha⟩ := registerNewCmd_some _ _ _ _ _ hreg
        right; left
        refine ⟨id, cmd, hfree, ⟨k, rnd, hk⟩, ?_⟩
        rw [← Option.some.inj h, ha]
        rfl
  | finish n run =>
    simp only [Sys.step] at h
    cases hg : s.running.get? n with
    | none => rw [hg] at h; exact Option.noConfusion h
    | some p =>
      rcases p with ⟨id, cmd⟩
      rw [hg] at h
      simp only [execute_eq, List.length_singleton] at h
      split at h
      · rename_i hcap
        obtain ⟨pre, post, he, hr⟩ := get?_eraseIdx_split _ _ _ hg
        right; right; left
        refine ⟨id, cmd, run cmd.Command cmd.Args, pre, post, he, hcap, ?_⟩
        rw [← Option.some.inj h, hr]
      · exact Option.noConfusion h
  | collect =>
    simp only [Sys.step, collectResults] at h
    cases hc : s.agent.completed with
    | nil => rw [hc] at h; exact Option.noConfusion h
    | cons res rest =>
      rw [hc] at h
      right; right; right
      exact ⟨res, rest, rfl, (Option.some.inj h).symm⟩

theorem Sys.Inv.init (port : Int) : (Sys.init port).Inv where
  keyID := by intro k r h; simp [Sys.init, NewAgent, Registry.get?] at h
  issuedNodup := List.nodup_nil
  issuedKey := by intro id h; simp [Sys.init] at h
  pendingCount := by intro id; simp [Sys.pending, Sys.init, NewAgent]
  pendingInProgress := by intro id h; simp [Sys.pending, Sys.init, NewAgent] at h
  storedStatus := by intro k r h; simp [Sys.init, NewAgent, Registry.get?] at h
  completedResult := by intro r h; simp [Sys.init, NewAgent] at h
  cap := by simp [Sys.init, NewAgent]
  ranResult := by intro id o h; simp [Sys.init] at h
  terminalRan := by intro k r h; simp [Sys.init, NewAgent, Registry.get?] at h

theorem resultOf_ne_inprogress (id : String) (o : String × Option String) :
    (resultOf id o).Status ≠ inprogress := by
  rcases resultOf_terminal id o with h | h
  · rw [h]; exact success_ne_inprogress
  · rw [h]; exact failure_ne_inprogress

/-- The invariant is kept by the registration of a new ID. -/
theorem Sys.Inv.register {s : Sys} (hinv : s.Inv) (id : String) (cmd : Command)
    (hfree : s.agent.executions.get? id = none) :
    Sys.Inv { agent := { s.agent with executions := s.agent.executions.set id (newExec id) }
              running := s.running ++ [(id, cmd)]
              issued := id :: s.issued
              ran := s.ran } where
  keyID := by
    intro k r h
    simp only [Registry.get?_set] at h
    split at h
    · rename_i hk
      rw [← Option.some.inj h, hk]
      rfl
    · exact hinv.keyID k r h
  issuedNodup := by
    refine List.nodup_cons.mpr ⟨?_, hinv.issuedNodup⟩
    intro hmem
    exact hinv.issuedKey id hmem hfree
  issuedKey := by
    intro id' hmem
    simp only [Registry.get?_set]
    split
    · exact Option.noConfusion
    · rcases List.mem_cons.mp hmem with h | h
      · rename_i hne
        exact absurd h hne
      · exact hinv.issuedKey id' h
  pendingCount := by
    intro id'
    have hold := hinv.pendingCount id'
    have hnot : id ∉ s.pending := by
      intro hmem
      obtain ⟨r, hr, _⟩ := hinv.pendingInProgress id hmem
      rw [hfree] at hr
      exact Option.noConfusion hr
    have hzero : s.pending.count id = 0 := List.count_eq_zero_of_not_mem hnot
    simp only [Sys.pending, List.map_append, List.map_cons, List.map_nil, List.count_append,
      List.count_cons, List.count_nil] at hold hzero ⊢
    by_cases hid : id = id'
    · subst hid
      simp
      omega
    · simp [hid]
      omega
  pendingInProgress := by
    intro id' hmem
    simp only [Registry.get?_set]
    by_cases hid : id' = id
    · rw [if_pos hid]
      exact ⟨newExec id, rfl, rfl⟩
    · rw [if_neg hid]
      apply hinv.pendingInProgress id'
      simp only [Sys.pending, List.map_append, List.map_cons, List.map_nil, List.mem_append,
        List.mem_singleton] at hmem ⊢
      rcases hmem with (h | h) | h
      · exact Or.inl h
      · exact absurd h hid
      · exact Or.inr h
  storedStatus := by
    intro k r h
    simp only [Registry.get?_set] at h
    split at h
    · rw [← Option.some.inj h]
      exact Or.inl rfl
    · exact hinv.storedStatus k r h
  completedResult := hinv.completedResult
  cap := hinv.cap
  ranResult := by
    intro id' o hmem
    rcases hinv.ranResult id' o hmem with h | h
    · exact Or.inl h
    · right
      have hne : id' ≠ id := by
        intro e
        rw [e, hfree] at h
        exact Option.noConfusion h
      simp only [Registry.get?_set, if_neg hne]
      exact h
  terminalRan := by
    intro k r h hterm
    simp only [Registry.get?_set] at h
    split at h
    · rw [← Option.some.inj h] at hterm
      exact absurd rfl hterm
    · exact hinv.terminalRan k r h hterm

/-- The invariant is kept when an `execute` goroutine sends its record. -/
theorem Sys.Inv.finish {s : Sys} (hinv : s.Inv) (id : String) (cmd : Command)
    (o : String × Option String) (pre post : List (String × Command))
    (hrun : s.running = pre ++ (id, cmd) :: post)
    (hcap : s.agent.completed.length + 1 ≤ completedCap) :
    Sys.Inv { agent := { s.agent with completed := s.agent.completed ++ [resultOf id o] }
              running := pre ++ post
              issued := s.issued
              ran := (id, o) :: s.ran } where
  keyID := hinv.keyID
  issuedNodup := hinv.issuedNodup
  issuedKey := hinv.issuedKey
  pendingCount := by
    intro id'
    have hold := hinv.pendingCount id'
    simp only [Sys.pending, hrun, List.map_append, List.map_cons, List.map_nil,
      List.count_append, List.count_cons, List.count_nil, resultOf_ID] at hold ⊢
    omega
  pendingInProgress := by
    intro id' hmem
    apply hinv.pendingInProgress id'
    simp only [Sys.pending, hrun, List.map_append, List.map_cons, List.map_nil,
      List.mem_append, List.mem_cons, List.mem_singleton, resultOf_ID, List.not_mem_nil,
      or_false] at hmem ⊢
    tauto
  storedStatus := hinv.storedStatus
  completedResult := by
    intro r hmem
    rcases List.mem_append.mp hmem with h | h
    · obtain ⟨o', ho', hr⟩ := hinv.completedResult r h
      exact ⟨o', List.mem_cons_of_mem _ ho', hr⟩
    · rw [List.mem_singleton] at h
      refine ⟨o, ?_, ?_⟩
      · rw [h, resultOf_ID]
        exact List.mem_cons_self _ _
      · rw [h, resultOf_ID]
  cap := by
    simp only [List.length_append, List.length_singleton]
    exact hcap
  ranResult := by
    intro id' o' hmem
    rcases List.mem_cons.mp hmem with h | h
    · left
      have h1 : id' = id := congrArg Prod.fst h
      have h2 : o' = o := congrArg Prod.snd h
      rw [h1, h2]
      exact List.mem_append_right _ (List.mem_singleton.mpr rfl)
    · rcases hinv.ranResult id' o' h with h' | h'
      · exact Or.inl (List.mem_append_left _ h')
      · exact Or.inr h'
  terminalRan := by
    intro k r h hterm
    obtain ⟨o', ho', hr⟩ := hinv.terminalRan k r h hterm
    exact ⟨o', List.mem_cons_of_mem _ ho', hr⟩

/-- The invariant is kept when the collector stores a record. -/
theorem Sys.Inv.collect {s : Sys} (hinv : s.Inv) (res : CommandExec)
    (rest : List CommandExec) (hc : s.agent.completed = res :: rest) :
    Sys.Inv { agent := { s.agent with executions := s.agent.executions.set res.ID res
                                      completed := rest }
              running := s.running
              issued := s.issued
              ran := s.ran } := by
  have hresmem : res ∈ s.agent.completed := by rw [hc]; exact List.mem_cons_self _ _
  obtain ⟨ores, horan, hores⟩ := hinv.completedResult res hresmem
  have hresterm : res.Status = success ∨ res.Status = failure := by
    rw [hores]
    exact resultOf_terminal _ _
  have hrespend : res.ID ∈ s.pending := by
    unfold Sys.pending
    rw [hc]
    exact List.mem_append_right _ (List.mem_cons_self _ _)
  obtain ⟨rold, hrold, hroldst⟩ := hinv.pendingInProgress res.ID hrespend
  exact
  { keyID := by
      intro k r h
      simp only [Registry.get?_set] at h
      split at h
      · rename_i hk
        rw [← Option.some.inj h, hk]
      · exact hinv.keyID k r h
    issuedNodup := hinv.issuedNodup
    issuedKey := by
      intro id' hmem
      simp only [Registry.get?_set]
      split
      · exact Option.noConfusion
      · exact hinv.issuedKey id' hmem
    pendingCount := by
      intro id'
      have hold := hinv.pendingCount id'
      simp only [Sys.pending, hc, List.map_cons, List.count_append, List.count_cons] at hold ⊢
      omega
    pendingInProgress := by
      intro id' hmem
      have hne : id' ≠ res.ID := by
        intro e
        have hold := hinv.pendingCount id'
        have hpos : 0 < List.count id' (s.running.map Prod.fst ++ rest.map CommandExec.ID) :=
          List.count_pos_iff.mpr hmem
        simp only [Sys.pending, hc, List.map_cons, List.count_append, List.count_cons,
          e, beq_self_eq_true, if_true] at hold hpos
        omega
      simp only [Registry.get?_set, if_neg hne]
      apply hinv.pendingInProgress id'
      simp only [Sys.pending, hc, List.map_cons, List.mem_append, List.mem_cons] at hmem ⊢
      tauto
    storedStatus := by
      intro k r h
      simp only [Registry.get?_set] at h
      split at h
      · rw [← Option.some.inj h]
        exact Or.inr hresterm
      · exact hinv.storedStatus k r h
    completedResult := by
      intro r hmem
      apply hinv.completedResult r
      rw [hc]
      exact List.mem_cons_of_mem _ hmem
    cap := by
      have := hinv.cap
      rw [hc, List.length_cons] at this
      exact Nat.le_of_succ_le this
    ranResult := by
      intro id' o' hmem
      rcases hinv.ranResult id' o' hmem with h | h
      · rw [hc] at h
        rcases List.mem_cons.mp h with h' | h'
        · right
          have hid : res.ID = id' := by rw [← h', resultOf_ID]
          simp only [Registry.get?_set, hid, if_true]
          rw [h']
        · exact Or.inl h'
      · right
        have hne : id' ≠ res.ID := by
          intro e
          rw [e, hrold] at h
          have := congrArg CommandExec.Status (Option.some.inj h)
          rw [hroldst] at this
          exact resultOf_ne_inprogress _ _ this.symm
        simp only [Registry.get?_set, if_neg hne]
        exact h
    terminalRan := by
      intro k r h hterm
      simp only [Registry.get?_set] at h
      split at h
      · rename_i hk
        rw [← Option.some.inj h, hk]
        exact ⟨ores, horan, hores⟩
      · exact hinv.terminalRan k r h hterm }

/-- Every step keeps the invariant. -/
theorem Sys.Inv.step {env : Env} {s s' : Sys} {act : Action} (hinv : s.Inv)
    (h : Sys.step env s act = some s') : s'.Inv := by
  rcases Sys.step_cases env s s' act h with
    h | ⟨id, cmd, hfree, _, h⟩ | ⟨id, cmd, o, pre, post, hrun, hcap, h⟩ | ⟨res, rest, hc, h⟩
  · rw [h]; exact hinv
  · rw [h]; exact hinv.register id cmd hfree
  · rw [h]; exact hinv.finish id cmd o pre post hrun hcap
  · rw [h]; exact hinv.collect res rest hc

/-- Every run keeps the invariant. -/
theorem Sys.Inv.run {env : Env} :
    ∀ (acts : List Action) {s s' : Sys}, s.Inv → Sys.run env s acts = some s' → s'.Inv := by
  intro acts
  induction acts with
  | nil =>
    intro s s' hinv h
    rw [← Option.some.inj h]
    exact hinv
  | cons act acts ih =>
    intro s s' hinv h
    simp only [Sys.run] at h
    cases hst : Sys.step env s act with
    | none => rw [hst] at h; exact Option.noConfusion h
    | some s1 =>
      rw [hst] at h
      exact ih (hinv.step hst) h

/-! ### Uniqueness of IDs and monotonic status -/

/-- One step changes a stored record only from IN PROGRESS to a terminal record. -/
theorem Sys.step_record {env : Env} {s s' : Sys} {act : Action} (hinv : s.Inv)
    (h : Sys.step env s act = some s') (k : String) (r : CommandExec)
    (hk : s.agent.executions.get? k = some r) :
    ∃ r', s'.agent.executions.get? k = some r' ∧
      (r' = r ∨ (r.Status = inprogress ∧ (r'.Status = success ∨ r'.Status = failure))) := by
  rcases Sys.step_cases env s s' act h with
    h | ⟨id, cmd, hfree, _, h⟩ | ⟨id, cmd, o, pre, post, hrun, hcap, h⟩ | ⟨res, rest, hc, h⟩
  · rw [h]; exact ⟨r, hk, Or.inl rfl⟩
  · rw [h]
    have hne : k ≠ id := by
      intro e
      rw [e, hfree] at hk
      exact Option.noConfusion hk
    exact ⟨r, by simp only [Registry.get?_set, if_neg hne]; exact hk, Or.inl rfl⟩
  · rw [h]; exact ⟨r, hk, Or.inl rfl⟩
  · rw [h]
    have hresmem : res ∈ s.agent.completed := by rw [hc]; exact List.mem_cons_self _ _
    obtain ⟨ores, _, hores⟩ := hinv.completedResult res hresmem
    have hrespend : res.ID ∈ s.pending := by
      unfold Sys.pending
      rw [hc]
      exact List.mem_append_right _ (List.mem_cons_self _ _)
    obtain ⟨rold, hrold, hroldst⟩ := hinv.pendingInProgress res.ID hrespend
    by_cases hid : k = res.ID
    · refine ⟨res, by simp only [Registry.get?_set, if_pos hid], Or.inr ⟨?_, ?_⟩⟩
      · rw [hid, hrold] at hk
        rw [← Option.some.inj hk]
        exact hroldst
      · rw [hores]
        exact resultOf_terminal _ _
    · exact ⟨r, by simp only [Registry.get?_set, if_neg hid]; exact hk, Or.inl rfl⟩

/-- Any number of steps change a stored record only from IN PROGRESS to a
terminal record. -/
theorem Sys.run_record {env : Env} :
    ∀ (acts : List Action) {s s' : Sys}, s.Inv → Sys.run env s acts = some s' →
      ∀ (k : String) (r : CommandExec), s.agent.executions.get? k = some r →
      ∃ r', s'.agent.executions.get? k = some r' ∧
        (r' = r ∨ (r.Status = inprogress ∧ (r'.Status = success ∨ r'.Status = failure))) := by
  intro acts
  induction acts with
  | nil =>
    intro s s' _ h k r hk
    rw [← Option.some.inj h]
    exact ⟨r, hk, Or.inl rfl⟩
  | cons act acts ih =>
    intro s s' hinv h k r hk
    simp only [Sys.run] at h
    cases hst : Sys.step env s act with
    | none => rw [hst] at h; exact Option.noConfusion h
    | some s1 =>
      rw [hst] at h
      obtain ⟨r1, hr1, hch1⟩ := Sys.step_record hinv hst k r hk
      obtain ⟨r', hr', hch'⟩ := ih (hinv.step hst) h k r1 hr1
      refine ⟨r', hr', ?_⟩
      rcases hch1 with h1 | ⟨hip, hterm1⟩
      · rw [h1] at hch'
        exact hch'
      · rcases hch' with h2 | ⟨_, hterm2⟩
        · rw [h2]
          exact Or.inr ⟨hip, hterm1⟩
        · exact Or.inr ⟨hip, hterm2⟩

theorem demo_run : Sys.run envEcho (Sys.init 8080) demoActs = some demoSys := by
  decide

/-- C2: in every state reached from `NewAgent` by registrations, deliveries of
executor results and collector applications, in any order, the IDs returned by
`registerNewCmd` are pairwise different, and every key of the registry is
mapped to a record that carries that key as its ID. -/
theorem issued_unique (env : Env) (port : Int) (acts : List Action) (s : Sys)
    (h : Sys.run env (Sys.init port) acts = some s) :
    s.issued.Nodup ∧ ∀ k r, s.agent.executions.get? k = some r → r.ID = k := by
  have hinv : s.Inv := Sys.Inv.run acts (Sys.Inv.init port) h
  exact ⟨hinv.issuedNodup, hinv.keyID⟩

/-- C2 at the run `demoActs`. -/
theorem issued_unique_witness :
    demoSys.issued.Nodup ∧ ∀ k r, demoSys.agent.executions.get? k = some r → r.ID = k :=
  issued_unique envEcho 8080 demoActs demoSys demo_run

/-- C3: in every reachable state every stored status is IN PROGRESS, SUCCESS or
FAILURE; over any later steps a stored record either stays as it is or goes
from IN PROGRESS to a record with status SUCCESS or FAILURE; and a record
whose status is SUCCESS or FAILURE is the stored record in every later state. -/
theorem status_monotonic (env : Env) (port : Int) (acts : List Action) (s : Sys)
    (h : Sys.run env (Sys.init port) acts = some s) :
    (∀ k r, s.agent.executions.get? k = some r →
      r.Status = inprogress ∨ r.Status = success ∨ r.Status = failure) ∧
    (∀ acts' s', Sys.run env s acts' = some s' →
      ∀ k r, s.agent.executions.get? k = some r →
      ∃ r', s'.agent.executions.get? k = some r' ∧
        (r' = r ∨ (r.Status = inprogress ∧ (r'.Status = success ∨ r'.Status = failure)))) ∧
    (∀ acts' s', Sys.run env s acts' = some s' →
      ∀ k r, s.agent.executions.get? k = some r →
      r.Status = success ∨ r.Status = failure →
      s'.agent.executions.get? k = some r) := by
  have hinv : s.Inv := Sys.Inv.run acts (Sys.Inv.init port) h
  refine ⟨hinv.storedStatus, ?_, ?_⟩
  · intro acts' s' hrun k r hk
    exact Sys.run_record acts' hinv hrun k r hk
  · intro acts' s' hrun k r hk hterm
    obtain ⟨r', hr', hch⟩ := Sys.run_record acts' hinv hrun k r hk
    rcases hch with h1 | ⟨hip, _⟩
    · rw [← h1]
      exact hr'
    · rcases hterm with ht | ht
      · rw [hip] at ht
        exact absurd ht.symm success_ne_inprogress
      · rw [hip] at ht
        exact absurd ht.symm failure_ne_inprogress

/-- C3 at the run `demoActs`. -/
theorem status_monotonic_witness :
    (∀ k r, demoSys.agent.executions.get? k = some r →
      r.Status = inprogress ∨ r.Status = success ∨ r.Status = failure) ∧
    (∀ acts' s', Sys.run envEcho demoSys acts' = some s' →
      ∀ k r, demoSys.agent.executions.get? k = some r →
      ∃ r', s'.agent.executions.get? k = some r' ∧
        (r' = r ∨ (r.Status = inprogress ∧ (r'.Status = success ∨ r'.Status = failure)))) ∧
    (∀ acts' s', Sys.run envEcho demoSys acts' = some s' →
      ∀ k r, demoSys.agent.executions.get? k = some r →
      r.Status = success ∨ r.Status = failure →
      s'.agent.executions.get? k = some r) :=
  status_monotonic envEcho 8080 demoActs demoSys demo_run

/-! ### The synchronous path of execHandler -/

theorem digitChar_large (n : Nat) : Nat.digitChar (n + 16) = '*' := by
  unfold Nat.digitChar
  rw [if_neg (by omega), if_neg (by omega), if_neg (by omega), if_neg (by omega),
    if_neg (by omega), if_neg (by omega), if_neg (by omega), if_neg (by omega),
    if_neg (by omega), if_neg (by omega), if_neg (by omega), if_neg (by omega),
    if_neg (by omega), if_neg (by omega), if_neg (by omega), if_neg (by omega)]

theorem digitChar_ne_slash : ∀ n : Nat, Nat.digitChar n ≠ '/'
  | 0 => by decide
  | 1 => by decide
  | 2 => by decide
  | 3 => by decide
  | 4 => by decide
  | 5 => by decide
  | 6 => by decide
  | 7 => by decide
  | 8 => by decide
  | 9 => by decide
  | 10 => by decide
  | 11 => by decide
  | 12 => by decide
  | 13 => by decide
  | 14 => by decide
  | 15 => by decide
  | n + 16 => by
    rw [digitChar_large]
    decide

theorem toDigitsCore_no_slash :
    ∀ (fuel n : Nat) (ds : List Char), '/' ∉ ds → '/' ∉ Nat.toDigitsCore 10 fuel n ds := by
  intro fuel
  induction fuel with
  | zero => intro n ds h; simpa [Nat.toDigitsCore] using h
  | succ fuel ih =>
    intro n ds h
    have hcons : '/' ∉ Nat.digitChar (n % 10) :: ds := by
      intro hmem
      rcases List.mem_cons.mp hmem with h' | h'
      · exact digitChar_ne_slash _ h'.symm
      · exact h h'
    simp only [Nat.toDigitsCore]
    split
    · exact hcons
    · exact ih _ _ hcons

/-- A candidate ID holds no `/`. -/
theorem candidate_no_slash (rnd : Nat → Nat) (k : Nat) : '/' ∉ (candidate rnd k).data := by
  have hrepr : '/' ∉ (Nat.repr (rnd k)).data := by
    simp only [Nat.repr, Nat.toDigits, List.asString]
    exact toDigitsCore_no_slash _ _ _ (List.not_mem_nil _)
  have hitoa : Itoa ((rnd k : Nat) : Int) = Nat.repr (rnd k) := by
    simp [Itoa]
  unfold candidate
  rw [hitoa, String.data_append]
  intro hmem
  rcases List.mem_append.mp hmem with h | h
  · exact absurd h (by decide)
  · exact hrepr h

/-- A status query for a stored ID that holds no `/` is answered with its record. -/
theorem statusHandler_stored (a : Agent) (id : String) (rec : CommandExec)
    (hid : '/' ∉ id.data) (hget : a.executions.get? id = some rec) :
    (statusHandler a newRecorder { Method := "GET", Path := "/status/" ++ id, Body := "" }).2 =
      { Code := some StatusOK, Body := [.exec rec] } := by
  have hpath : ("/status/" ++ id).data = "/status".data ++ '/' :: id.data := by
    rw [String.data_append]
    rfl
  have hg := (statusHandler_get a newRecorder
    { Method := "GET", Path := "/status/" ++ id, Body := "" } rfl).2 "/status".data id.data
    hpath hid
  rw [hg]
  have : String.mk id.data = id := rfl
  rw [this, hget]
  rfl

/-- C5: a PUT or POST request whose body decodes to a command with `Sync` true
registers the ID `id` in a reachable state; after any further steps, when an
iteration of the wait loop reads a status other than IN PROGRESS, the handler
responds with the record `res` just read. That record is the registry's record
for `id`, it carries `id`, and its status is SUCCESS or FAILURE; it is the
record `execute` sent for `id`, so the status is SUCCESS when `Output()`
returned no error and FAILURE otherwise; and in every later state the registry
still holds `res` for `id` and a status query for `id` is answered with it. -/
theorem execHandler_sync (env : Env) (port : Int) (acts : List Action) (s0 : Sys)
    (hreach : Sys.run env (Sys.init port) acts = some s0)
    (r : Request) (cmd : Command) (rnd : Nat → Nat) (fuel : Nat) (id : String) (a1 : Agent)
    (hstart : execHandlerStart env s0.agent newRecorder r rnd fuel =
      some (a1, .launched id cmd))
    (hsync : cmd.Sync = true)
    (acts1 : List Action) (s2 : Sys)
    (hrun : Sys.run env s0 (.exec r rnd fuel :: acts1) = some s2)
    (res : CommandExec) (hpoll : syncPoll s2.agent id = (res, true)) :
    (r.Method = "PUT" ∨ r.Method = "POST") ∧ env.decode r.Body = (cmd, none) ∧
    execHandlerReply newRecorder cmd id res = { Code := some StatusOK, Body := [.exec res] } ∧
    s2.agent.executions.get? id = some res ∧ res.ID = id ∧
    (res.Status = success ∨ res.Status = failure) ∧
    (∃ o, (id, o) ∈ s2.ran ∧ res = resultOf id o) ∧
    (∀ o, (id, o) ∈ s2.ran →
      (o.2 = none → res.Status = success) ∧ (o.2 ≠ none → res.Status = failure)) ∧
    (∀ acts2 s3, Sys.run env s2 acts2 = some s3 →
      s3.agent.executions.get? id = some res ∧
      (statusHandler s3.agent newRecorder
          { Method := "GET", Path := "/status/" ++ id, Body := "" }).2 =
        { Code := some StatusOK, Body := [.exec res] }) := by
  have hinv0 : s0.Inv := Sys.Inv.run acts (Sys.Inv.init port) hreach
  have hinv2 : s2.Inv := Sys.Inv.run _ hinv0 hrun
  -- the request was accepted and its ID registered
  obtain ⟨hcmd, hdec, hreg⟩ : cmd = (env.decode r.Body).1 ∧ (env.decode r.Body).2 = none ∧
      registerNewCmd s0.agent rnd fuel = some (id, a1) := by
    rcases execHandlerStart_cases _ _ _ _ _ _ _ _ hstart with ⟨_, w', hw⟩ | ⟨id', hl, hd, hreg⟩
    · exact ExecStart.noConfusion hw
    · injection hl with h1 h2
      rw [h1]
      exact ⟨h2, hd, hreg⟩
  have hmeth : r.Method = "PUT" ∨ r.Method = "POST" := by
    by_contra hne
    have hm : r.Method ≠ "PUT" ∧ r.Method ≠ "POST" := ⟨fun e => hne (Or.inl e), fun e => hne (Or.inr e)⟩
    unfold execHandlerStart at hstart
    rw [if_pos hm] at hstart
    exact ExecStart.noConfusion (congrArg Prod.snd (Option.some.inj hstart))
  have hdecode : env.decode r.Body = (cmd, none) := by
    rw [hcmd, ← hdec]
  obtain ⟨⟨k, hk⟩, hfree, ha1⟩ := registerNewCmd_some _ _ _ _ _ hreg
  -- the state after the first step
  simp only [Sys.run, Sys.step, hstart] at hrun
  have hinv1 := hinv0.register id cmd hfree
  have hget1 : a1.executions.get? id = some (newExec id) := by
    rw [ha1]
    exact Registry.get?_set_self _ _ _
  have hinv1' : Sys.Inv
      { agent := a1
        running := s0.running ++ [(id, cmd)]
        issued := id :: s0.issued
        ran := s0.ran } := by
    rw [ha1]
    exact hinv1
  obtain ⟨r2, hr2, hch2⟩ := Sys.run_record acts1 hinv1' hrun id (newExec id) hget1
  -- the read of the wait loop
  have hres : res = r2 := by
    have := congrArg Prod.fst hpoll
    simp only [syncPoll, hr2, Option.getD_some] at this
    exact this.symm
  have hnotip : res.Status ≠ inprogress := by
    have := congrArg Prod.snd hpoll
    simp only [syncPoll, hr2, Option.getD_some] at this
    rw [hres]
    simpa using this
  have hget2 : s2.agent.executions.get? id = some res := by rw [hres]; exact hr2
  have hterm : res.Status = success ∨ res.Status = failure := by
    rcases hinv2.storedStatus id res hget2 with h | h
    · exact absurd h hnotip
    · exact h
  have hran : ∀ o, (id, o) ∈ s2.ran → res = resultOf id o := by
    intro o ho
    rcases hinv2.ranResult id o ho with h | h
    · have hpend : id ∈ s2.pending := by
        unfold Sys.pending
        apply List.mem_append_right
        exact List.mem_map.mpr ⟨_, h, resultOf_ID id o⟩
      obtain ⟨r', hr', hip⟩ := hinv2.pendingInProgress id hpend
      rw [hget2] at hr'
      rw [Option.some.inj hr'] at hnotip
      exact absurd hip hnotip
    · rw [hget2] at h
      exact Option.some.inj h
  have hslash : '/' ∉ id.data := by
    rw [hk]
    exact candidate_no_slash rnd k
  refine ⟨hmeth, hdecode, ?_, hget2, hinv2.keyID id res hget2, hterm,
    hinv2.terminalRan id res hget2 hnotip, ?_, ?_⟩
  · simp only [execHandlerReply, hsync, if_true]
    rfl
  · intro o ho
    rw [hran o ho]
    exact resultOf_status id o
  · intro acts2 s3 hrun3
    obtain ⟨r3, hr3, hch3⟩ := Sys.run_record acts2 hinv2 hrun3 id res hget2
    have hsame : r3 = res := by
      rcases hch3 with h | ⟨hip, _⟩
      · exact h
      · exact absurd hip hnotip
    rw [hsame] at hr3
    exact ⟨hr3, statusHandler_stored _ id res hslash hr3⟩

/-- C5 at the run of `TestExec`: `echo hello` is submitted with `Sync` true to a
new agent, runs without error, and the response is the SUCCESS record with the
results `["hello"]`. -/
theorem execHandler_sync_witness :
    execHandlerReply newRecorder echoCmd "cmd-7"
        { ID := "cmd-7", Status := success, Results := ["hello"] } =
      { Code := some StatusOK,
        Body := [.exec { ID := "cmd-7", Status := success, Results := ["hello"] }] } ∧
    echoSys.agent.executions.get? "cmd-7" =
      some { ID := "cmd-7", Status := success, Results := ["hello"] } ∧
    (∀ acts2 s3, Sys.run envEcho echoSys acts2 = some s3 →
      s3.agent.executions.get? "cmd-7" =
        some { ID := "cmd-7", Status := success, Results := ["hello"] } ∧
      (statusHandler s3.agent newRecorder
          { Method := "GET", Path := "/status/" ++ "cmd-7", Body := "" }).2 =
        { Code := some StatusOK,
          Body := [.exec { ID := "cmd-7", Status := success, Results := ["hello"] }] }) :=
  have h := execHandler_sync envEcho 8080 [] (Sys.init 8080) rfl execRequest echoCmd
    (fun _ => 7) 1 "cmd-7"
    { port := 8080
      executions := [("cmd-7", { ID := "cmd-7", Status := inprogress, Results := [] })]
      completed := [] }
    (by decide) rfl [.finish 0 runEcho, .collect] echoSys (by decide)
    { ID := "cmd-7", Status := success, Results := ["hello"] } (by decide)
  ⟨h.2.2.1, h.2.2.2.1, h.2.2.2.2.2.2.2.2⟩

end Execagent
